import Mathlib

/-!
Shallow embedding of the rclone-remote reconciliation engine of
`pass-ssh-unpack` (`src/rclone.rs`), together with proofs about its
reconciliation plan, its in-memory config session, its INI-level text
mutations and its actual-state reader.

Modelling conventions:
* A config text buffer is represented as its list of lines
  (`List String`, each element one line without the trailing newline).
  `remove_ini_section` emits every kept line followed by a newline, and
  `create_remote_in_memory` runs it first, so the buffer handled by the
  in-memory mutation path is always newline-terminated and the
  line-list representation is exact.
* Rust character/string primitives used by the source
  (`starts_with('[')`, `ends_with(']')`, `str::trim`,
  `trim_end_matches(':')`, `find('=')`, `contains`) are modelled as
  executable functions on `String.data` character lists.
* `HashMap<String, _>` is modelled as an association list queried with
  `List.lookup`; `HashMap::insert` (overwrite) is modelled by a
  shadowing cons, which has the same `lookup` semantics.
* Subprocess and filesystem effects are explicit: command outputs are
  parameters, and the disk is a map from paths to file data.
-/

namespace PassSshUnpack

/-- The ownership marker constant `"managed by pass-ssh-unpack"`
(`src/rclone.rs`, written by `create_remote_*` and checked by
`sync_remotes` / `purge_managed_remotes`). -/
def managedMarker : String := "managed by pass-ssh-unpack"

/-- `DesiredRemote` (src/rclone.rs lines 701-713): the desired state of a
single remote, either a primary SFTP remote or an alias. -/
inductive DesiredRemote where
  | sftp (host : String) (user : String) (key_file : Option String)
      (ssh : Option String) (server_command : Option String)
  | alias (target : String)
  deriving DecidableEq, Repr

/-- `RcloneRemote` (src/rclone.rs lines 715-733): a parsed actual-state
remote.  Every field other than the type tag is optional. -/
structure RcloneRemote where
  remote_type : String
  description : Option String := none
  key_file : Option String := none
  remote : Option String := none
  host : Option String := none
  user : Option String := none
  ssh : Option String := none
  server_command : Option String := none
  deriving DecidableEq, Repr

/-- Rust `str::trim_end_matches(c)`: repeatedly remove the character from
the end of the string. -/
def rtrimCharsList (p : Char → Bool) (l : List Char) : List Char :=
  (l.reverse.dropWhile p).reverse

/-- Drop leading characters satisfying `p` (Rust trim-start). -/
def ltrimCharsList (p : Char → Bool) (l : List Char) : List Char :=
  l.dropWhile p

/-- Rust `char::is_whitespace`: the Unicode `White_Space` property
(U+0009–U+000D, U+0020, U+0085, U+00A0, U+1680, U+2000–U+200A, U+2028,
U+2029, U+202F, U+205F, U+3000).  Lean's own `Char.isWhitespace` covers
only the ASCII subset, so it would be an unfaithful model here. -/
def rustIsWhitespace (c : Char) : Bool :=
  let n := c.toNat
  (9 ≤ n && n ≤ 13) || n == 32 || n == 0x85 || n == 0xA0 || n == 0x1680
    || (0x2000 ≤ n && n ≤ 0x200A) || n == 0x2028 || n == 0x2029
    || n == 0x202F || n == 0x205F || n == 0x3000

/-- Rust `str::trim`: strip Unicode whitespace from both ends. -/
def rustTrim (s : String) : String :=
  String.mk (rtrimCharsList rustIsWhitespace
    (ltrimCharsList rustIsWhitespace s.data))

/-- Rust `s.trim_end_matches(':')`, used on alias targets by
`remote_matches` (src/rclone.rs line 759). -/
def trimTrailingColons (s : String) : String :=
  String.mk (rtrimCharsList (fun c => c = ':') s.data)

/-- First character of a line; `line.starts_with('[')` in the source is
`charHead l = some '['` here. -/
def charHead (l : String) : Option Char := l.data.head?

/-- Last character of a line; `line.ends_with(']')` on a trimmed line is
`charLast l = some ']'` here. -/
def charLast (l : String) : Option Char := l.data.getLast?

/-- `remote_matches` (src/rclone.rs lines 736-763): does an existing
remote already agree with the desired definition? -/
def remoteMatches (existing : RcloneRemote) (desired : DesiredRemote) : Bool :=
  match desired with
  | .sftp host user key_file ssh server_command =>
      existing.remote_type = "sftp"
        && existing.host = some host
        && existing.user = some user
        && existing.key_file = key_file
        && existing.ssh = ssh
        && existing.server_command = server_command
  | .alias target =>
      existing.remote_type = "alias"
        && (match existing.remote with
            | some r => trimTrailingColons r = target
            | none => false)

/-- The five buckets of the reconciliation plan computed by
`sync_remotes` (src/rclone.rs lines 346-385). -/
structure SyncPlan where
  toCreate : List (String × DesiredRemote)
  toUpdate : List (String × DesiredRemote)
  toDelete : List String
  unchanged : List String
  skippedUnmanaged : List String
  deriving DecidableEq, Repr

/-- The empty plan (the five `Vec::new()` calls,
src/rclone.rs lines 346-350). -/
def SyncPlan.empty : SyncPlan := ⟨[], [], [], [], []⟩

/-- One iteration of the classification loop over desired names
(src/rclone.rs lines 356-374): absent from actual means create; present
but not carrying the ownership marker means skip-conflict; present,
owned, and matching means unchanged; otherwise update. -/
def classifyStep (actual : List (String × RcloneRemote)) (plan : SyncPlan)
    (p : String × DesiredRemote) : SyncPlan :=
  match actual.lookup p.1 with
  | some existing =>
      if existing.description ≠ some managedMarker then
        { plan with skippedUnmanaged := plan.skippedUnmanaged ++ [p.1] }
      else if remoteMatches existing p.2 then
        { plan with unchanged := plan.unchanged ++ [p.1] }
      else
        { plan with toUpdate := plan.toUpdate ++ [p] }
  | none => { plan with toCreate := plan.toCreate ++ [p] }

/-- The reconciliation plan of `sync_remotes`
(src/rclone.rs lines 346-385): classify every desired name, then, in
full mode, mark for deletion every actual entry that carries the
ownership marker and is not desired.  The source iterates desired names
in sorted order; the order of a bucket is irrelevant to every property
proved below, so the model iterates the desired list as given. -/
def syncPlan (desired : List (String × DesiredRemote))
    (actual : List (String × RcloneRemote)) (fullMode : Bool) : SyncPlan :=
  let plan := desired.foldl (classifyStep actual) SyncPlan.empty
  if fullMode then
    { plan with toDelete := plan.toDelete ++
        ((actual.filter (fun q =>
            q.2.description = some managedMarker
              && (desired.lookup q.1).isNone)).map Prod.fst) }
  else plan

/-- A single mutation issued to a mutation backend (either
`*_via_rclone` or `*_in_memory`). -/
inductive MutationOp where
  | deleteRemote (name : String)
  | createRemote (name : String) (d : DesiredRemote)
  deriving DecidableEq, Repr

/-- The full sequence of backend operations issued by the non-dry-run
apply phase of `sync_remotes` (src/rclone.rs lines 440-496): first the
deletions, then the creations, then each update as delete-then-create. -/
def applyOps (plan : SyncPlan) : List MutationOp :=
  plan.toDelete.map MutationOp.deleteRemote
    ++ plan.toCreate.map (fun p => MutationOp.createRemote p.1 p.2)
    ++ plan.toUpdate.flatMap
        (fun p => [MutationOp.deleteRemote p.1, MutationOp.createRemote p.1 p.2])

/-! ### Bucket characterizations of the reconciliation plan -/

/-- Predicate for the create bucket: the desired name is absent from the
actual mapping (src/rclone.rs line 371). -/
def isCreateEntry (actual : List (String × RcloneRemote))
    (p : String × DesiredRemote) : Bool :=
  (actual.lookup p.1).isNone

/-- Predicate for the skip-conflict bucket: present in actual but not
carrying the ownership marker (src/rclone.rs line 360). -/
def isSkipEntry (actual : List (String × RcloneRemote))
    (p : String × DesiredRemote) : Bool :=
  match actual.lookup p.1 with
  | some ex => ex.description != some managedMarker
  | none => false

/-- Predicate for the unchanged bucket (src/rclone.rs line 366). -/
def isUnchangedEntry (actual : List (String × RcloneRemote))
    (p : String × DesiredRemote) : Bool :=
  match actual.lookup p.1 with
  | some ex => ex.description == some managedMarker && remoteMatches ex p.2
  | none => false

/-- Predicate for the update bucket (src/rclone.rs line 369). -/
def isUpdateEntry (actual : List (String × RcloneRemote))
    (p : String × DesiredRemote) : Bool :=
  match actual.lookup p.1 with
  | some ex => ex.description == some managedMarker && !remoteMatches ex p.2
  | none => false

theorem foldl_classify_toCreate (A : List (String × RcloneRemote))
    (D : List (String × DesiredRemote)) (init : SyncPlan) :
    (D.foldl (classifyStep A) init).toCreate
      = init.toCreate ++ D.filter (isCreateEntry A) := by
  induction D generalizing init with
  | nil => simp
  | cons p D ih =>
      rw [List.foldl_cons, ih, List.filter_cons]
      rcases h : A.lookup p.1 with _ | ex
      · simp [classifyStep, h, isCreateEntry]
      · by_cases hd : ex.description = some managedMarker
        · by_cases hm : remoteMatches ex p.2 <;>
            simp [classifyStep, h, hd, hm, isCreateEntry]
        · simp [classifyStep, h, hd, isCreateEntry]

theorem foldl_classify_toUpdate (A : List (String × RcloneRemote))
    (D : List (String × DesiredRemote)) (init : SyncPlan) :
    (D.foldl (classifyStep A) init).toUpdate
      = init.toUpdate ++ D.filter (isUpdateEntry A) := by
  induction D generalizing init with
  | nil => simp
  | cons p D ih =>
      rw [List.foldl_cons, ih, List.filter_cons]
      rcases h : A.lookup p.1 with _ | ex
      · simp [classifyStep, h, isUpdateEntry]
      · by_cases hd : ex.description = some managedMarker
        · by_cases hm : remoteMatches ex p.2 <;>
            simp [classifyStep, h, hd, hm, isUpdateEntry]
        · simp [classifyStep, h, hd, isUpdateEntry]

theorem foldl_classify_unchanged (A : List (String × RcloneRemote))
    (D : List (String × DesiredRemote)) (init : SyncPlan) :
    (D.foldl (classifyStep A) init).unchanged
      = init.unchanged ++ (D.filter (isUnchangedEntry A)).map Prod.fst := by
  induction D generalizing init with
  | nil => simp
  | cons p D ih =>
      rw [List.foldl_cons, ih, List.filter_cons]
      rcases h : A.lookup p.1 with _ | ex
      · simp [classifyStep, h, isUnchangedEntry]
      · by_cases hd : ex.description = some managedMarker
        · by_cases hm : remoteMatches ex p.2 <;>
            simp [classifyStep, h, hd, hm, isUnchangedEntry]
        · simp [classifyStep, h, hd, isUnchangedEntry]

theorem foldl_classify_skipped (A : List (String × RcloneRemote))
    (D : List (String × DesiredRemote)) (init : SyncPlan) :
    (D.foldl (classifyStep A) init).skippedUnmanaged
      = init.skippedUnmanaged ++ (D.filter (isSkipEntry A)).map Prod.fst := by
  induction D generalizing init with
  | nil => simp
  | cons p D ih =>
      rw [List.foldl_cons, ih, List.filter_cons]
      rcases h : A.lookup p.1 with _ | ex
      · simp [classifyStep, h, isSkipEntry]
      · by_cases hd : ex.description = some managedMarker
        · by_cases hm : remoteMatches ex p.2 <;>
            simp [classifyStep, h, hd, hm, isSkipEntry]
        · simp [classifyStep, h, hd, isSkipEntry]

theorem foldl_classify_toDelete (A : List (String × RcloneRemote))
    (D : List (String × DesiredRemote)) (init : SyncPlan) :
    (D.foldl (classifyStep A) init).toDelete = init.toDelete := by
  induction D generalizing init with
  | nil => simp
  | cons p D ih =>
      rw [List.foldl_cons, ih]
      rcases h : A.lookup p.1 with _ | ex
      · simp [classifyStep, h]
      · by_cases hd : ex.description = some managedMarker
        · by_cases hm : remoteMatches ex p.2 <;>
            simp [classifyStep, h, hd, hm]
        · simp [classifyStep, h, hd]

theorem syncPlan_toCreate (D : List (String × DesiredRemote))
    (A : List (String × RcloneRemote)) (full : Bool) :
    (syncPlan D A full).toCreate = D.filter (isCreateEntry A) := by
  unfold syncPlan
  split_ifs <;> simp [foldl_classify_toCreate, SyncPlan.empty]

theorem syncPlan_toUpdate (D : List (String × DesiredRemote))
    (A : List (String × RcloneRemote)) (full : Bool) :
    (syncPlan D A full).toUpdate = D.filter (isUpdateEntry A) := by
  unfold syncPlan
  split_ifs <;> simp [foldl_classify_toUpdate, SyncPlan.empty]

theorem syncPlan_unchanged (D : List (String × DesiredRemote))
    (A : List (String × RcloneRemote)) (full : Bool) :
    (syncPlan D A full).unchanged
      = (D.filter (isUnchangedEntry A)).map Prod.fst := by
  unfold syncPlan
  split_ifs <;> simp [foldl_classify_unchanged, SyncPlan.empty]

theorem syncPlan_skipped (D : List (String × DesiredRemote))
    (A : List (String × RcloneRemote)) (full : Bool) :
    (syncPlan D A full).skippedUnmanaged
      = (D.filter (isSkipEntry A)).map Prod.fst := by
  unfold syncPlan
  split_ifs <;> simp [foldl_classify_skipped, SyncPlan.empty]

theorem syncPlan_toDelete (D : List (String × DesiredRemote))
    (A : List (String × RcloneRemote)) (full : Bool) :
    (syncPlan D A full).toDelete
      = if full then
          (A.filter (fun q =>
            q.2.description = some managedMarker
              && (D.lookup q.1).isNone)).map Prod.fst
        else [] := by
  unfold syncPlan
  split_ifs <;> simp [foldl_classify_toDelete, SyncPlan.empty]

/-! ### Association-list helpers (the `HashMap` view) -/

theorem lookup_eq_some_of_keysNodup {α β : Type} [BEq α] [LawfulBEq α]
    {A : List (α × β)} (h : (A.map Prod.fst).Nodup) {n : α} {r : β}
    (hm : (n, r) ∈ A) : A.lookup n = some r := by
  induction A with
  | nil => cases hm
  | cons p A ih =>
      rw [List.map_cons, List.nodup_cons] at h
      rcases List.mem_cons.mp hm with heq | hm'
      · subst heq
        simp [List.lookup]
      · have hne : (n == p.1) = false := by
          by_cases hq : n = p.1
          · exact absurd (hq ▸ List.mem_map_of_mem Prod.fst hm') h.1
          · simp [hq]
        cases p with
        | mk k v => simpa [List.lookup, hne] using ih h.2 hm'

theorem lookup_eq_none_iff_keys {α β : Type} [BEq α] [LawfulBEq α]
    (A : List (α × β)) (n : α) :
    A.lookup n = none ↔ n ∉ A.map Prod.fst := by
  induction A with
  | nil => simp
  | cons p A ih =>
      cases p with
      | mk k v =>
          by_cases hk : n = k
          · subst hk
            simp [List.lookup]
          · have hne : (n == k) = false := by simp [hk]
            simp [List.lookup, hne, ih, hk]

theorem snd_eq_of_keysNodup {α β : Type} {D : List (α × β)}
    (h : (D.map Prod.fst).Nodup) {n : α} {d d' : β}
    (h1 : (n, d) ∈ D) (h2 : (n, d') ∈ D) : d = d' := by
  induction D with
  | nil => cases h1
  | cons p D ih =>
      rw [List.map_cons, List.nodup_cons] at h
      rcases List.mem_cons.mp h1 with heq1 | h1'
      · rcases List.mem_cons.mp h2 with heq2 | h2'
        · exact congrArg Prod.snd (heq1.trans heq2.symm)
        · have hmem := List.mem_map_of_mem Prod.fst h2'
          rw [show n = p.1 from congrArg Prod.fst heq1] at hmem
          exact absurd hmem h.1
      · rcases List.mem_cons.mp h2 with heq2 | h2'
        · have hmem := List.mem_map_of_mem Prod.fst h1'
          rw [show n = p.1 from congrArg Prod.fst heq2] at hmem
          exact absurd hmem h.1
        · exact ih h.2 h1' h2'

/-! ### Membership characterizations of the plan buckets -/

theorem mem_syncPlan_toCreate {D : List (String × DesiredRemote)}
    {A : List (String × RcloneRemote)} {full : Bool} {n : String} :
    n ∈ (syncPlan D A full).toCreate.map Prod.fst
      ↔ ∃ d, (n, d) ∈ D ∧ A.lookup n = none := by
  rw [syncPlan_toCreate]
  constructor
  · intro h
    rcases List.mem_map.mp h with ⟨p, hp, rfl⟩
    rcases List.mem_filter.mp hp with ⟨hmem, hpred⟩
    exact ⟨p.2, by simpa using hmem,
      by simpa [isCreateEntry, Option.isNone_iff_eq_none] using hpred⟩
  · rintro ⟨d, hd, hl⟩
    exact List.mem_map.mpr ⟨(n, d),
      List.mem_filter.mpr ⟨hd, by simp [isCreateEntry, hl]⟩, rfl⟩

theorem mem_syncPlan_toUpdate {D : List (String × DesiredRemote)}
    {A : List (String × RcloneRemote)} {full : Bool} {n : String} :
    n ∈ (syncPlan D A full).toUpdate.map Prod.fst
      ↔ ∃ d ex, (n, d) ∈ D ∧ A.lookup n = some ex
          ∧ ex.description = some managedMarker
          ∧ remoteMatches ex d = false := by
  rw [syncPlan_toUpdate]
  constructor
  · intro h
    rcases List.mem_map.mp h with ⟨p, hp, rfl⟩
    rcases List.mem_filter.mp hp with ⟨hmem, hpred⟩
    unfold isUpdateEntry at hpred
    rcases hl : A.lookup p.1 with _ | ex
    · rw [hl] at hpred; cases hpred
    · rw [hl] at hpred
      rcases Bool.and_eq_true _ _ |>.mp hpred with ⟨hd, hm⟩
      refine ⟨p.2, ex, ?_, rfl, ?_, ?_⟩
      · simpa using hmem
      · simpa using hd
      · simpa using hm
  · rintro ⟨d, ex, hd, hl, hdesc, hm⟩
    exact List.mem_map.mpr ⟨(n, d),
      List.mem_filter.mpr ⟨hd, by simp [isUpdateEntry, hl, hdesc, hm]⟩, rfl⟩

theorem mem_syncPlan_unchanged {D : List (String × DesiredRemote)}
    {A : List (String × RcloneRemote)} {full : Bool} {n : String} :
    n ∈ (syncPlan D A full).unchanged
      ↔ ∃ d ex, (n, d) ∈ D ∧ A.lookup n = some ex
          ∧ ex.description = some managedMarker
          ∧ remoteMatches ex d = true := by
  rw [syncPlan_unchanged]
  constructor
  · intro h
    rcases List.mem_map.mp h with ⟨p, hp, rfl⟩
    rcases List.mem_filter.mp hp with ⟨hmem, hpred⟩
    unfold isUnchangedEntry at hpred
    rcases hl : A.lookup p.1 with _ | ex
    · rw [hl] at hpred; cases hpred
    · rw [hl] at hpred
      rcases Bool.and_eq_true _ _ |>.mp hpred with ⟨hd, hm⟩
      refine ⟨p.2, ex, ?_, rfl, ?_, hm⟩
      · simpa using hmem
      · simpa using hd
  · rintro ⟨d, ex, hd, hl, hdesc, hm⟩
    exact List.mem_map.mpr ⟨(n, d),
      List.mem_filter.mpr ⟨hd, by simp [isUnchangedEntry, hl, hdesc, hm]⟩, rfl⟩

theorem mem_syncPlan_skipped {D : List (String × DesiredRemote)}
    {A : List (String × RcloneRemote)} {full : Bool} {n : String} :
    n ∈ (syncPlan D A full).skippedUnmanaged
      ↔ ∃ d ex, (n, d) ∈ D ∧ A.lookup n = some ex
          ∧ ex.description ≠ some managedMarker := by
  rw [syncPlan_skipped]
  constructor
  · intro h
    rcases List.mem_map.mp h with ⟨p, hp, rfl⟩
    rcases List.mem_filter.mp hp with ⟨hmem, hpred⟩
    unfold isSkipEntry at hpred
    rcases hl : A.lookup p.1 with _ | ex
    · rw [hl] at hpred; cases hpred
    · rw [hl] at hpred
      refine ⟨p.2, ex, ?_, rfl, ?_⟩
      · simpa using hmem
      · simpa using hpred
  · rintro ⟨d, ex, hd, hl, hdesc⟩
    exact List.mem_map.mpr ⟨(n, d),
      List.mem_filter.mpr ⟨hd, by simp [isSkipEntry, hl, hdesc]⟩, rfl⟩

theorem mem_syncPlan_toDelete {D : List (String × DesiredRemote)}
    {A : List (String × RcloneRemote)} {n : String} :
    n ∈ (syncPlan D A true).toDelete
      ↔ ∃ r, (n, r) ∈ A ∧ r.description = some managedMarker
          ∧ n ∉ D.map Prod.fst := by
  rw [syncPlan_toDelete]
  simp only [if_pos rfl]
  constructor
  · intro h
    rcases List.mem_map.mp h with ⟨q, hq, rfl⟩
    rcases List.mem_filter.mp hq with ⟨hmem, hpred⟩
    rcases Bool.and_eq_true _ _ |>.mp hpred with ⟨hd, hnone⟩
    exact ⟨q.2, by simpa using hmem, by simpa using hd,
      (lookup_eq_none_iff_keys D q.1).mp
        (Option.isNone_iff_eq_none.mp hnone)⟩
  · rintro ⟨r, hr, hdesc, hnot⟩
    refine List.mem_map.mpr ⟨(n, r), List.mem_filter.mpr ⟨hr, ?_⟩, rfl⟩
    simp [hdesc, Option.isNone_iff_eq_none,
      (lookup_eq_none_iff_keys D n).mpr hnot]

theorem syncPlan_toDelete_not_full {D : List (String × DesiredRemote)}
    {A : List (String × RcloneRemote)} :
    (syncPlan D A false).toDelete = [] := by
  rw [syncPlan_toDelete]
  rfl

/-! ### The operations issued by the apply phase -/

theorem deleteOp_mem_applyOps {plan : SyncPlan} {n : String} :
    MutationOp.deleteRemote n ∈ applyOps plan
      ↔ n ∈ plan.toDelete ∨ n ∈ plan.toUpdate.map Prod.fst := by
  simp only [applyOps, List.mem_append, List.mem_map, List.mem_flatMap,
    List.mem_cons, List.mem_singleton]
  constructor
  · rintro ((⟨m, hm, heq⟩ | ⟨p, hp, heq⟩) | ⟨p, hp, heq | heq⟩)
    · injection heq with h
      subst h
      exact Or.inl hm
    · simp at heq
    · injection heq with h
      exact Or.inr ⟨p, hp, h.symm⟩
    · simp at heq
  · rintro (h | ⟨p, hp, rfl⟩)
    · exact Or.inl (Or.inl ⟨n, h, rfl⟩)
    · exact Or.inr ⟨p, hp, Or.inl rfl⟩

theorem createOp_mem_applyOps {plan : SyncPlan} {n : String}
    {d : DesiredRemote} :
    MutationOp.createRemote n d ∈ applyOps plan
      ↔ (n, d) ∈ plan.toCreate ∨ (n, d) ∈ plan.toUpdate := by
  simp only [applyOps, List.mem_append, List.mem_map, List.mem_flatMap,
    List.mem_cons, List.mem_singleton]
  constructor
  · rintro ((⟨m, hm, heq⟩ | ⟨p, hp, heq⟩) | ⟨p, hp, heq0 | heq | hnil⟩)
    · simp at heq
    · injection heq with h1 h2
      subst h1
      subst h2
      exact Or.inl (by simpa using hp)
    · simp at heq0
    · injection heq with h1 h2
      subst h1
      subst h2
      exact Or.inr (by simpa using hp)
    · simp at hnil
  · rintro (h | h)
    · exact Or.inl (Or.inr ⟨(n, d), h, rfl⟩)
    · exact Or.inr ⟨(n, d), h, Or.inr (Or.inl rfl)⟩

/-! ### Claim C1 -/

/-- C1: for every desired mapping `D` (with unique names, as a
`HashMap` guarantees) and actual mapping `A`, the plan computed by
`sync_remotes` puts each name of `D` into exactly one of the buckets
create, update, unchanged, skip-conflict, and, in full mode, the delete
bucket holds exactly the names of `A` whose description equals the
ownership marker and which are absent from `D`; without full mode the
delete bucket is empty. -/
theorem c1_sync_plan_partitions_desired
    (D : List (String × DesiredRemote)) (A : List (String × RcloneRemote))
    (full : Bool) (hD : (D.map Prod.fst).Nodup) :
    (∀ n, n ∈ D.map Prod.fst ↔
        (n ∈ (syncPlan D A full).toCreate.map Prod.fst ∨
         n ∈ (syncPlan D A full).toUpdate.map Prod.fst ∨
         n ∈ (syncPlan D A full).unchanged ∨
         n ∈ (syncPlan D A full).skippedUnmanaged))
    ∧ (∀ n, n ∈ (syncPlan D A full).toCreate.map Prod.fst →
         n ∉ (syncPlan D A full).toUpdate.map Prod.fst ∧
         n ∉ (syncPlan D A full).unchanged ∧
         n ∉ (syncPlan D A full).skippedUnmanaged)
    ∧ (∀ n, n ∈ (syncPlan D A full).toUpdate.map Prod.fst →
         n ∉ (syncPlan D A full).unchanged ∧
         n ∉ (syncPlan D A full).skippedUnmanaged)
    ∧ (∀ n, n ∈ (syncPlan D A full).unchanged →
         n ∉ (syncPlan D A full).skippedUnmanaged)
    ∧ (∀ n, n ∈ (syncPlan D A true).toDelete ↔
         ∃ r, (n, r) ∈ A ∧ r.description = some managedMarker
           ∧ n ∉ D.map Prod.fst)
    ∧ (syncPlan D A false).toDelete = [] := by
  refine ⟨?_, ?_, ?_, ?_, fun n => mem_syncPlan_toDelete,
    syncPlan_toDelete_not_full⟩
  · intro n
    constructor
    · intro hn
      rcases List.mem_map.mp hn with ⟨p, hp, rfl⟩
      rcases hl : A.lookup p.1 with _ | ex
      · exact Or.inl (mem_syncPlan_toCreate.mpr ⟨p.2, by simpa using hp, hl⟩)
      · by_cases hdesc : ex.description = some managedMarker
        · by_cases hm : remoteMatches ex p.2
          · exact Or.inr (Or.inr (Or.inl (mem_syncPlan_unchanged.mpr
              ⟨p.2, ex, by simpa using hp, hl, hdesc, hm⟩)))
          · exact Or.inr (Or.inl (mem_syncPlan_toUpdate.mpr
              ⟨p.2, ex, by simpa using hp, hl, hdesc,
                Bool.eq_false_iff.mpr hm⟩))
        · exact Or.inr (Or.inr (Or.inr (mem_syncPlan_skipped.mpr
            ⟨p.2, ex, by simpa using hp, hl, hdesc⟩)))
    · rintro (h | h | h | h)
      · rcases mem_syncPlan_toCreate.mp h with ⟨d, hd, _⟩
        exact List.mem_map_of_mem Prod.fst hd
      · rcases mem_syncPlan_toUpdate.mp h with ⟨d, ex, hd, _, _, _⟩
        exact List.mem_map_of_mem Prod.fst hd
      · rcases mem_syncPlan_unchanged.mp h with ⟨d, ex, hd, _, _, _⟩
        exact List.mem_map_of_mem Prod.fst hd
      · rcases mem_syncPlan_skipped.mp h with ⟨d, ex, hd, _, _⟩
        exact List.mem_map_of_mem Prod.fst hd
  · intro n hc
    rcases mem_syncPlan_toCreate.mp hc with ⟨d, _, hnone⟩
    refine ⟨fun h => ?_, fun h => ?_, fun h => ?_⟩
    · rcases mem_syncPlan_toUpdate.mp h with ⟨d', ex, _, hsome, _, _⟩
      rw [hnone] at hsome
      cases hsome
    · rcases mem_syncPlan_unchanged.mp h with ⟨d', ex, _, hsome, _, _⟩
      rw [hnone] at hsome
      cases hsome
    · rcases mem_syncPlan_skipped.mp h with ⟨d', ex, _, hsome, _⟩
      rw [hnone] at hsome
      cases hsome
  · intro n hu
    rcases mem_syncPlan_toUpdate.mp hu with ⟨d, ex, hd, hsome, hdesc, hm⟩
    refine ⟨fun h => ?_, fun h => ?_⟩
    · rcases mem_syncPlan_unchanged.mp h with ⟨d', ex', hd', hsome', _, hm'⟩
      rcases snd_eq_of_keysNodup hD hd hd'
      rw [hsome] at hsome'
      cases hsome'
      rw [hm] at hm'
      cases hm'
    · rcases mem_syncPlan_skipped.mp h with ⟨d', ex', hd', hsome', hdesc'⟩
      rw [hsome] at hsome'
      cases hsome'
      exact hdesc' hdesc
  · intro n hu h
    rcases mem_syncPlan_unchanged.mp hu with ⟨d, ex, hd, hsome, hdesc, _⟩
    rcases mem_syncPlan_skipped.mp h with ⟨d', ex', hd', hsome', hdesc'⟩
    rw [hsome] at hsome'
    cases hsome'
    exact hdesc' hdesc

/-- Witness for C1 at a concrete desired/actual pair
(Scenario D of the specification: full mode, actual has owned `old` not
in desired, desired has new `fresh` not in actual). -/
theorem c1_sync_plan_partitions_desired_witness :
    ((([("fresh", DesiredRemote.sftp "h" "u" (some "/k") none none)]).map
        (Prod.fst (α := String) (β := DesiredRemote))).Nodup)
    ∧ ("fresh" ∈ (syncPlan
        [("fresh", DesiredRemote.sftp "h" "u" (some "/k") none none)]
        [("old", { remote_type := "sftp",
                   description := some managedMarker : RcloneRemote })]
        true).toCreate.map Prod.fst ∨
       "fresh" ∈ (syncPlan
        [("fresh", DesiredRemote.sftp "h" "u" (some "/k") none none)]
        [("old", { remote_type := "sftp",
                   description := some managedMarker : RcloneRemote })]
        true).toUpdate.map Prod.fst ∨
       "fresh" ∈ (syncPlan
        [("fresh", DesiredRemote.sftp "h" "u" (some "/k") none none)]
        [("old", { remote_type := "sftp",
                   description := some managedMarker : RcloneRemote })]
        true).unchanged ∨
       "fresh" ∈ (syncPlan
        [("fresh", DesiredRemote.sftp "h" "u" (some "/k") none none)]
        [("old", { remote_type := "sftp",
                   description := some managedMarker : RcloneRemote })]
        true).skippedUnmanaged)
    ∧ "old" ∈ (syncPlan
        [("fresh", DesiredRemote.sftp "h" "u" (some "/k") none none)]
        [("old", { remote_type := "sftp",
                   description := some managedMarker : RcloneRemote })]
        true).toDelete := by
  have h := c1_sync_plan_partitions_desired
    [("fresh", DesiredRemote.sftp "h" "u" (some "/k") none none)]
    [("old", { remote_type := "sftp",
               description := some managedMarker : RcloneRemote })]
    true (by decide)
  refine ⟨by decide, (h.1 "fresh").mp (by decide), ?_⟩
  exact (h.2.2.2.2.1 "old").mpr
    ⟨{ remote_type := "sftp", description := some managedMarker },
      by decide, rfl, by decide⟩

/-! ### Claims C2, C9, C5 -/

/-- Shared helper: an actual entry whose description is not the
ownership marker never reaches the create or update bucket, never
reaches the delete bucket, and no backend operation ever names it. -/
theorem foreign_entry_untouched (D : List (String × DesiredRemote))
    (A : List (String × RcloneRemote)) (full : Bool) {n : String}
    {r : RcloneRemote} (hA : (A.map Prod.fst).Nodup) (hm : (n, r) ∈ A)
    (hforeign : r.description ≠ some managedMarker) :
    n ∉ (syncPlan D A full).toCreate.map Prod.fst
    ∧ n ∉ (syncPlan D A full).toUpdate.map Prod.fst
    ∧ n ∉ (syncPlan D A full).toDelete
    ∧ MutationOp.deleteRemote n ∉ applyOps (syncPlan D A full)
    ∧ (∀ d, MutationOp.createRemote n d ∉ applyOps (syncPlan D A full)) := by
  have hl : A.lookup n = some r := lookup_eq_some_of_keysNodup hA hm
  have hc : n ∉ (syncPlan D A full).toCreate.map Prod.fst := by
    intro h
    rcases mem_syncPlan_toCreate.mp h with ⟨d, _, hnone⟩
    rw [hl] at hnone
    cases hnone
  have hu : n ∉ (syncPlan D A full).toUpdate.map Prod.fst := by
    intro h
    rcases mem_syncPlan_toUpdate.mp h with ⟨d, ex, _, hsome, hdesc, _⟩
    rw [hl] at hsome
    cases hsome
    exact hforeign hdesc
  have hdel : n ∉ (syncPlan D A full).toDelete := by
    cases full with
    | false =>
        rw [syncPlan_toDelete_not_full]
        simp
    | true =>
        intro h
        rcases mem_syncPlan_toDelete.mp h with ⟨r', hr', hdesc', _⟩
        have hl' := lookup_eq_some_of_keysNodup hA hr'
        rw [hl] at hl'
        cases hl'
        exact hforeign hdesc'
  refine ⟨hc, hu, hdel, ?_, ?_⟩
  · intro h
    rcases deleteOp_mem_applyOps.mp h with h' | h'
    · exact hdel h'
    · exact hu h'
  · intro d h
    rcases createOp_mem_applyOps.mp h with h' | h'
    · exact hc (List.mem_map_of_mem Prod.fst h')
    · exact hu (List.mem_map_of_mem Prod.fst h')

/-- C2: every actual entry whose description is not exactly the
ownership marker (absent included) is placed in the skip-conflict
bucket when its name is desired, never enters the create, update or
delete bucket, and is never the target of any create or delete backend
operation during sync. -/
theorem c2_foreign_entries_skipped_never_touched
    (D : List (String × DesiredRemote)) (A : List (String × RcloneRemote))
    (full : Bool) (n : String) (r : RcloneRemote)
    (hA : (A.map Prod.fst).Nodup) (hm : (n, r) ∈ A)
    (hforeign : r.description ≠ some managedMarker) :
    (n ∈ D.map Prod.fst → n ∈ (syncPlan D A full).skippedUnmanaged)
    ∧ n ∉ (syncPlan D A full).toCreate.map Prod.fst
    ∧ n ∉ (syncPlan D A full).toUpdate.map Prod.fst
    ∧ n ∉ (syncPlan D A full).toDelete
    ∧ MutationOp.deleteRemote n ∉ applyOps (syncPlan D A full)
    ∧ (∀ d, MutationOp.createRemote n d ∉ applyOps (syncPlan D A full)) := by
  have hl : A.lookup n = some r := lookup_eq_some_of_keysNodup hA hm
  have h := foreign_entry_untouched D A full hA hm hforeign
  refine ⟨fun hn => ?_, h.1, h.2.1, h.2.2.1, h.2.2.2.1, h.2.2.2.2⟩
  rcases List.mem_map.mp hn with ⟨p, hp, rfl⟩
  exact mem_syncPlan_skipped.mpr ⟨p.2, r, by simpa using hp, hl, hforeign⟩

/-- Witness for C2 (Scenario C of the specification: actual `db1` has
no ownership marker, desired also wants `db1`). -/
theorem c2_foreign_entries_skipped_never_touched_witness :
    ((([("db1", ({ remote_type := "sftp", host := some "h",
                   user := some "u" } : RcloneRemote))]).map
        (Prod.fst (α := String) (β := RcloneRemote))).Nodup)
    ∧ ({ remote_type := "sftp", host := some "h",
         user := some "u" } : RcloneRemote).description ≠ some managedMarker
    ∧ "db1" ∈ (syncPlan
        [("db1", DesiredRemote.sftp "h" "u" none none none)]
        [("db1", ({ remote_type := "sftp", host := some "h",
                    user := some "u" } : RcloneRemote))]
        true).skippedUnmanaged
    ∧ MutationOp.deleteRemote "db1" ∉ applyOps (syncPlan
        [("db1", DesiredRemote.sftp "h" "u" none none none)]
        [("db1", ({ remote_type := "sftp", host := some "h",
                    user := some "u" } : RcloneRemote))] true) := by
  have h := c2_foreign_entries_skipped_never_touched
    [("db1", DesiredRemote.sftp "h" "u" none none none)]
    [("db1", ({ remote_type := "sftp", host := some "h",
                user := some "u" } : RcloneRemote))] true "db1"
    { remote_type := "sftp", host := some "h", user := some "u" }
    (by decide) (by decide) (by decide)
  exact ⟨by decide, by decide, h.1 (by decide), h.2.2.2.2.1⟩

/-- C9 counterexample: an actual entry of unrecognized type `"s3"`
whose description equals the ownership marker, absent from the desired
mapping, is deleted in full mode — refuting the claim that entries with
unknown type tags are retained untouched regardless of their ownership
marker. -/
theorem c9_counterexample_unknown_type_deleted :
    "old" ∈ (syncPlan []
      [("old", { remote_type := "s3",
                 description := some managedMarker : RcloneRemote })]
      true).toDelete
    ∧ MutationOp.deleteRemote "old" ∈ applyOps (syncPlan []
      [("old", { remote_type := "s3",
                 description := some managedMarker : RcloneRemote })]
      true) := by
  decide

/-- C9 amended: an actual entry whose type tag matches no known type
(neither `"sftp"` nor `"alias"`) is retained untouched — never deleted,
re-created, or altered, whether or not its name is desired and whether
or not full mode is on — provided its description is not the ownership
marker; an unknown-type entry carrying the marker is treated exactly
like any owned entry. -/
theorem c9_amended_unknown_type_foreign_retained
    (D : List (String × DesiredRemote)) (A : List (String × RcloneRemote))
    (full : Bool) (n : String) (r : RcloneRemote)
    (hA : (A.map Prod.fst).Nodup) (hm : (n, r) ∈ A)
    (htype1 : r.remote_type ≠ "sftp") (htype2 : r.remote_type ≠ "alias")
    (hforeign : r.description ≠ some managedMarker) :
    n ∉ (syncPlan D A full).toCreate.map Prod.fst
    ∧ n ∉ (syncPlan D A full).toUpdate.map Prod.fst
    ∧ n ∉ (syncPlan D A full).toDelete
    ∧ MutationOp.deleteRemote n ∉ applyOps (syncPlan D A full)
    ∧ (∀ d, MutationOp.createRemote n d ∉ applyOps (syncPlan D A full)) :=
  foreign_entry_untouched D A full hA hm hforeign

/-- Witness for the amended C9: a foreign `"s3"` entry is untouched
even in full mode with its name desired. -/
theorem c9_amended_unknown_type_foreign_retained_witness :
    "legacy" ∉ (syncPlan
      [("legacy", DesiredRemote.sftp "h" "u" none none none)]
      [("legacy", { remote_type := "s3" : RcloneRemote })]
      true).toDelete
    ∧ MutationOp.deleteRemote "legacy" ∉ applyOps (syncPlan
      [("legacy", DesiredRemote.sftp "h" "u" none none none)]
      [("legacy", { remote_type := "s3" : RcloneRemote })]
      true) := by
  have h := c9_amended_unknown_type_foreign_retained
    [("legacy", DesiredRemote.sftp "h" "u" none none none)]
    [("legacy", { remote_type := "s3" : RcloneRemote })]
    true "legacy" { remote_type := "s3" }
    (by decide) (by decide) (by decide) (by decide) (by decide)
  exact ⟨h.2.2.1, h.2.2.2.1⟩

/-- C5 counterexample: desired and actual agree on an owned connection
profile `db1` whose `key_file` points at `/nonexistent/key` — a path
that exists on no filesystem (the sync code never consults the
filesystem at all).  The claimed pruning pass would delete it after
apply; the code issues no operation whatsoever. -/
theorem c5_counterexample_no_pruning_pass :
    applyOps (syncPlan
      [("db1", DesiredRemote.sftp "h" "u" (some "/nonexistent/key") none none)]
      [("db1", { remote_type := "sftp", description := some managedMarker,
                 host := some "h", user := some "u",
                 key_file := some "/nonexistent/key" : RcloneRemote })]
      true) = []
    ∧ MutationOp.deleteRemote "db1" ∉ applyOps (syncPlan
      [("db1", DesiredRemote.sftp "h" "u" (some "/nonexistent/key") none none)]
      [("db1", { remote_type := "sftp", description := some managedMarker,
                 host := some "h", user := some "u",
                 key_file := some "/nonexistent/key" : RcloneRemote })]
      true) := by
  decide

/-- C5 amended: the non-dry-run apply phase of `sync_remotes` issues
exactly the operations of the reconciliation plan and nothing more: a
delete operation occurs for a name if and only if the name is in the
full-mode delete bucket or is updated (delete-then-create); a create
operation occurs exactly for the create and update buckets; without
full mode the delete bucket is empty.  No post-apply pruning pass
exists. -/
theorem c5_amended_apply_is_exactly_plan
    (D : List (String × DesiredRemote)) (A : List (String × RcloneRemote))
    (full : Bool) :
    (∀ n, MutationOp.deleteRemote n ∈ applyOps (syncPlan D A full) ↔
       n ∈ (syncPlan D A full).toDelete ∨
       n ∈ (syncPlan D A full).toUpdate.map Prod.fst)
    ∧ (∀ n d, MutationOp.createRemote n d ∈ applyOps (syncPlan D A full) ↔
       (n, d) ∈ (syncPlan D A full).toCreate ∨
       (n, d) ∈ (syncPlan D A full).toUpdate)
    ∧ (syncPlan D A false).toDelete = [] :=
  ⟨fun _ => deleteOp_mem_applyOps, fun _ _ => createOp_mem_applyOps,
    syncPlan_toDelete_not_full⟩

/-! ### The in-memory config session (`InMemoryConfig`, src/rclone.rs 29-114)

The on-disk state is a map from paths to file data; a file is either
plaintext lines or an encrypted blob produced by the external
`rclone config encryption set` transform, modelled as a constructor
tagging the password used. -/

/-- Contents of a file on disk: plaintext config lines, or the result
of the external encryption transform applied with a password. -/
inductive FileData where
  | plain (lines : List String)
  | encrypted (password : String) (lines : List String)
  deriving DecidableEq, Repr

/-- The filesystem visible to the session. -/
def Disk : Type := String → Option FileData

/-- Write one file. -/
def diskUpdate (d : Disk) (path : String) (data : FileData) : Disk :=
  fun q => if q = path then some data else d q

/-- `InMemoryConfig` (src/rclone.rs lines 29-44): the decrypted config
held in memory, with the captured password and the bookkeeping flags. -/
structure InMemoryConfig where
  content : List String
  originalPath : String
  password : Option String
  wasEncrypted : Bool
  alwaysEncrypt : Bool
  modified : Bool
  finalized : Bool
  deriving Repr

namespace InMemoryConfig

/-- `InMemoryConfig::new` (src/rclone.rs lines 49-74): capture
`RCLONE_CONFIG_PASS` from the environment, run `rclone config show`
(its stdout is `showOutput`; `none` models a failed command, on which
`new` bails), and build the session with `modified = false`,
`finalized = false`.  No disk write occurs. -/
def new (env : Option String) (showOutput : Option (List String))
    (originalPath : String) (wasEncrypted alwaysEncrypt : Bool) :
    Option InMemoryConfig :=
  showOutput.map fun content =>
    { content := content, originalPath := originalPath, password := env,
      wasEncrypted := wasEncrypted, alwaysEncrypt := alwaysEncrypt,
      modified := false, finalized := false }

/-- `content_mut` (src/rclone.rs lines 82-85) followed by an in-place
text transformation: flips `modified` and edits only the in-memory
buffer — the source touches no file here. -/
def contentMut (s : InMemoryConfig) (f : List String → List String) :
    InMemoryConfig :=
  { s with content := f s.content, modified := true }

/-- `should_encrypt` (src/rclone.rs lines 88-91). -/
def shouldEncrypt (s : InMemoryConfig) : Bool :=
  s.password.isSome && (s.wasEncrypted || s.alwaysEncrypt)

/-- `finalize` (src/rclone.rs lines 94-114): no-op when already
finalized; when modified, write the buffer to the backing path and then
re-encrypt through the external transform exactly when
`should_encrypt`; always set `finalized`. -/
def finalize (s : InMemoryConfig) (d : Disk) : InMemoryConfig × Disk :=
  if s.finalized then (s, d)
  else
    let d' :=
      if s.modified then
        let d1 := diskUpdate d s.originalPath (FileData.plain s.content)
        if s.shouldEncrypt then
          match s.password with
          | some pw =>
              diskUpdate d1 s.originalPath (FileData.encrypted pw s.content)
          | none => d1
        else d1
      else d
    ({ s with finalized := true }, d')

/-- A session run: any sequence of in-memory mutations applied through
`content_mut`; the disk is threaded through untouched, as in the
source, where every pre-finalize session operation edits only the
in-memory `String`. -/
def runMutations (fs : List (List String → List String))
    (s : InMemoryConfig) (d : Disk) : InMemoryConfig × Disk :=
  match fs with
  | [] => (s, d)
  | f :: rest => runMutations rest (s.contentMut f) d

theorem runMutations_disk (fs : List (List String → List String))
    (s : InMemoryConfig) (d : Disk) : (runMutations fs s d).2 = d := by
  induction fs generalizing s with
  | nil => rfl
  | cons f rest ih => exact ih (s.contentMut f)

end InMemoryConfig

/-- C3: for every session on which `open` (`InMemoryConfig::new`)
succeeded, no session operation writes to the backing file before
`finalize`: any sequence of in-memory mutations leaves the whole disk
(and in particular the backing file) byte-identical to its pre-open
contents, and calling `finalize` on the never-modified fresh session
also leaves the disk unchanged. -/
theorem c3_session_never_writes_before_finalize
    (env : Option String) (showOutput : Option (List String))
    (path : String) (we ae : Bool) (s : InMemoryConfig) (d : Disk)
    (fs : List (List String → List String))
    (hopen : InMemoryConfig.new env showOutput path we ae = some s) :
    (InMemoryConfig.runMutations fs s d).2 = d
    ∧ (InMemoryConfig.finalize s d).2 = d := by
  refine ⟨InMemoryConfig.runMutations_disk fs s d, ?_⟩
  rcases showOutput with _ | content
  · cases hopen
  · simp only [InMemoryConfig.new, Option.map_some', Option.some.injEq]
      at hopen
    rw [← hopen]
    rfl

/-- Witness for C3: a fresh session over a one-section config, mutated
once in memory, leaves an initially empty disk untouched; so does a
finalize on the unmutated session. -/
theorem c3_session_never_writes_before_finalize_witness :
    (InMemoryConfig.runMutations [fun c => c ++ ["[b]", "type = alias"]]
      { content := ["[a]", "type = sftp"], originalPath := "/cfg",
        password := none, wasEncrypted := false, alwaysEncrypt := false,
        modified := false, finalized := false }
      (fun _ => none)).2 = (fun _ => none)
    ∧ (InMemoryConfig.finalize
      { content := ["[a]", "type = sftp"], originalPath := "/cfg",
        password := none, wasEncrypted := false, alwaysEncrypt := false,
        modified := false, finalized := false }
      (fun _ => none)).2 = (fun _ => none) :=
  c3_session_never_writes_before_finalize none (some ["[a]", "type = sftp"])
    "/cfg" false false _ (fun _ => none)
    [fun c => c ++ ["[b]", "type = alias"]] rfl

/-- C4: `finalize` is idempotent and conditional: a finalized session
is left alone entirely; a never-modified session writes nothing; a
modified session writes the buffer verbatim to the backing path and
re-encrypts it exactly when a password was captured at open and the
file was encrypted at load or always-encrypt is set (other paths are
untouched); and a second `finalize` after a successful one changes
nothing. -/
theorem c4_finalize_idempotent_conditional (s : InMemoryConfig) (d : Disk) :
    (s.finalized = true → InMemoryConfig.finalize s d = (s, d))
    ∧ (s.modified = false → (InMemoryConfig.finalize s d).2 = d)
    ∧ (s.finalized = false → s.modified = true →
        (InMemoryConfig.finalize s d).2 s.originalPath =
          some (match s.password with
            | some pw =>
                if s.wasEncrypted || s.alwaysEncrypt then
                  FileData.encrypted pw s.content
                else FileData.plain s.content
            | none => FileData.plain s.content)
        ∧ (∀ q, q ≠ s.originalPath →
            (InMemoryConfig.finalize s d).2 q = d q))
    ∧ InMemoryConfig.finalize (InMemoryConfig.finalize s d).1
        (InMemoryConfig.finalize s d).2 = InMemoryConfig.finalize s d := by
  refine ⟨?_, ?_, ?_, ?_⟩
  · intro hf
    simp [InMemoryConfig.finalize, hf]
  · intro hm
    by_cases hf : s.finalized
    · simp [InMemoryConfig.finalize, hf]
    · simp [InMemoryConfig.finalize, hf, hm]
  · intro hf hm
    constructor
    · rcases hp : s.password with _ | pw
      · simp [InMemoryConfig.finalize, hf, hm, InMemoryConfig.shouldEncrypt,
          hp, diskUpdate]
      · by_cases he : s.wasEncrypted || s.alwaysEncrypt
        · simp [InMemoryConfig.finalize, hf, hm,
            InMemoryConfig.shouldEncrypt, hp, he, diskUpdate]
        · simp [InMemoryConfig.finalize, hf, hm,
            InMemoryConfig.shouldEncrypt, hp,
            Bool.eq_false_iff.mpr he, diskUpdate, he]
    · intro q hq
      rcases hp : s.password with _ | pw
      · simp [InMemoryConfig.finalize, hf, hm, InMemoryConfig.shouldEncrypt,
          hp, diskUpdate, hq]
      · by_cases he : s.wasEncrypted || s.alwaysEncrypt
        · simp [InMemoryConfig.finalize, hf, hm,
            InMemoryConfig.shouldEncrypt, hp, he, diskUpdate, hq]
        · simp [InMemoryConfig.finalize, hf, hm,
            InMemoryConfig.shouldEncrypt, hp,
            Bool.eq_false_iff.mpr he, diskUpdate, hq, he]
  · by_cases hf : s.finalized
    · simp [InMemoryConfig.finalize, hf]
    · have h1 : (InMemoryConfig.finalize s d).1.finalized = true := by
        simp [InMemoryConfig.finalize, hf]
      have h1s : (InMemoryConfig.finalize s d).1
          = { s with finalized := true } := by
        simp [InMemoryConfig.finalize, hf]
      rw [InMemoryConfig.finalize, if_pos h1, h1s]
      rw [InMemoryConfig.finalize, if_neg (by simp [hf])]

/-- Witness for C4: finalizing a modified session that was encrypted at
load with a captured password re-encrypts the written buffer with that
password. -/
theorem c4_finalize_idempotent_conditional_witness :
    (InMemoryConfig.finalize
      { content := ["[a]", "type = sftp"], originalPath := "/cfg",
        password := some "pw", wasEncrypted := true,
        alwaysEncrypt := false, modified := true, finalized := false }
      (fun _ => none)).2 "/cfg"
      = some (FileData.encrypted "pw" ["[a]", "type = sftp"]) :=
  ((c4_finalize_idempotent_conditional
      { content := ["[a]", "type = sftp"], originalPath := "/cfg",
        password := some "pw", wasEncrypted := true,
        alwaysEncrypt := false, modified := true, finalized := false }
      (fun _ => none)).2.2.1 rfl rfl).1

/-! ### The actual-state reader `get_rclone_config`
(src/rclone.rs lines 889-966) -/

/-- Captured output of one subprocess invocation. -/
structure CmdOutput where
  success : Bool
  stdout : String
  stderr : String

/-- Rust `str::contains` (substring containment). -/
def containsSub (needle hay : String) : Bool :=
  hay.data.tails.any (fun t => needle.data.isPrefixOf t)

/-- The encrypted-store detection on the first dump's stderr
(src/rclone.rs lines 905-907). -/
def encryptedPattern (stderr : String) : Bool :=
  containsSub "unable to decrypt configuration" stderr
    || containsSub "RCLONE_CONFIG_PASS" stderr

/-- The wrong-password detection on the retry's stderr
(src/rclone.rs lines 936-938). -/
def wrongPasswordPattern (stderr : String) : Bool :=
  containsSub "wrong password" stderr || containsSub "unable to decrypt" stderr

/-- `get_rclone_config` (src/rclone.rs lines 889-966).  `env` is the
current `RCLONE_CONFIG_PASS`; `dump` gives the outcome of
`rclone config dump` as a function of that variable; `promptPw` is the
result of the interactive password prompt (`none` models a read
failure); `parseJson` is the serde decode, whose failure is absorbed by
`unwrap_or_default`.  Returns the result together with the final value
of `RCLONE_CONFIG_PASS` (`none` after `remove_var`). -/
def getRcloneConfig (env : Option String)
    (dump : Option String → CmdOutput) (promptPw : Option String)
    (parseJson : String → Option (List (String × RcloneRemote))) :
    Except String (List (String × RcloneRemote)) × Option String :=
  let out := dump env
  if !out.success then
    if encryptedPattern out.stderr then
      match promptPw with
      | none => (.error "Failed to read rclone password", env)
      | some pw =>
        if pw = "" then (.error "No password provided", env)
        else
          let retry := dump (some pw)
          if !retry.success then
            if wrongPasswordPattern retry.stderr then
              (.error "Incorrect rclone config password", none)
            else (.ok [], some pw)
          else if retry.stdout = "" then (.ok [], some pw)
          else (.ok ((parseJson retry.stdout).getD []), some pw)
    else (.ok [], env)
  else if out.stdout = "" then (.ok [], env)
  else (.ok ((parseJson out.stdout).getD []), env)

/-- C6: the actual-state reader never propagates an error for an
ordinary dump failure or a JSON parse failure — it yields an empty
mapping — except in the encrypted-store branch, where it establishes a
password and retries `dump`; a retry that fails with the wrong-password
pattern is a returned fatal error that also removes
`RCLONE_CONFIG_PASS` from the environment. -/
theorem c6_reader_error_contract (env : Option String)
    (dump : Option String → CmdOutput) (promptPw : Option String)
    (parseJson : String → Option (List (String × RcloneRemote))) :
    ((dump env).success = true →
        (getRcloneConfig env dump promptPw parseJson).1.isOk = true
        ∧ (getRcloneConfig env dump promptPw parseJson).2 = env)
    ∧ ((dump env).success = false →
        encryptedPattern (dump env).stderr = false →
        getRcloneConfig env dump promptPw parseJson = (.ok [], env))
    ∧ (∀ pw, (dump env).success = false →
        encryptedPattern (dump env).stderr = true →
        promptPw = some pw → pw ≠ "" →
        ((dump (some pw)).success = false →
            wrongPasswordPattern (dump (some pw)).stderr = true →
            getRcloneConfig env dump promptPw parseJson
              = (.error "Incorrect rclone config password", none))
        ∧ ((dump (some pw)).success = false →
            wrongPasswordPattern (dump (some pw)).stderr = false →
            getRcloneConfig env dump promptPw parseJson = (.ok [], some pw))
        ∧ ((dump (some pw)).success = true →
            (getRcloneConfig env dump promptPw parseJson).2 = some pw
            ∧ (getRcloneConfig env dump promptPw parseJson).1.isOk = true)) := by
  refine ⟨?_, ?_, ?_⟩
  · intro hs
    by_cases ho : (dump env).stdout = "" <;>
      simp [getRcloneConfig, hs, ho, Except.isOk, Except.toBool]
  · intro hs hp
    simp [getRcloneConfig, hs, hp]
  · intro pw hs hp hprompt hpw
    subst hprompt
    refine ⟨?_, ?_, ?_⟩
    · intro hrs hrw
      simp [getRcloneConfig, hs, hp, hpw, hrs, hrw]
    · intro hrs hrw
      simp [getRcloneConfig, hs, hp, hpw, hrs, hrw]
    · intro hrs
      by_cases hro : (dump (some pw)).stdout = "" <;>
        simp [getRcloneConfig, hs, hp, hpw, hrs, hro, Except.isOk, Except.toBool]

/-- Witness for C6: a store whose dump reports an encrypted config, a
prompted password that the retry rejects as wrong — the reader returns
the fatal wrong-password error and clears the environment variable. -/
theorem c6_reader_error_contract_witness :
    getRcloneConfig none
      (fun o => match o with
        | none =>
            { success := false, stdout := "",
              stderr := "unable to decrypt configuration" }
        | some _ =>
            { success := false, stdout := "", stderr := "wrong password" })
      (some "guess") (fun _ => none)
      = (.error "Incorrect rclone config password", none) :=
  ((c6_reader_error_contract none
      (fun o => match o with
        | none =>
            { success := false, stdout := "",
              stderr := "unable to decrypt configuration" }
        | some _ =>
            { success := false, stdout := "", stderr := "wrong password" })
      (some "guess") (fun _ => none)).2.2 "guess" rfl (by decide) rfl
      (by decide)).1 rfl (by decide)

/-! ### Claim C7: when is the config session opened -/

/-- The session decision of `sync_remotes` (src/rclone.rs lines
267-271): `always_encrypt = config.rclone.always_encrypt && !dry_run`,
then `use_in_memory = was_encrypted || (always_encrypt && has_password)`. -/
def syncUseInMemory (wasEncrypted configAlwaysEncrypt dryRun
    hasPassword : Bool) : Bool :=
  let alwaysEncrypt := configAlwaysEncrypt && !dryRun
  wasEncrypted || (alwaysEncrypt && hasPassword)

/-- The session decision of `purge_managed_remotes` (src/rclone.rs
lines 596-604): the same formula, and the session is created only when
additionally `!dry_run`. -/
def purgeOpensSession (wasEncrypted configAlwaysEncrypt dryRun
    hasPassword : Bool) : Bool :=
  syncUseInMemory wasEncrypted configAlwaysEncrypt dryRun hasPassword
    && !dryRun

/-- Modelled from the spec: the claimed session condition — store
encrypted at rest OR (always-encrypt requested AND a password
available) — with no dry-run dependence. -/
def claimedSessionCondition (wasEncrypted configAlwaysEncrypt
    hasPassword : Bool) : Bool :=
  wasEncrypted || (configAlwaysEncrypt && hasPassword)

/-- C7 counterexample: on a dry run over an unencrypted store with
always-encrypt requested and a password available, `sync_remotes` does
NOT open a config session although the claimed condition holds — dry
run does enter the decision. -/
theorem c7_counterexample_dry_run_enters_decision :
    syncUseInMemory false true true true = false
    ∧ claimedSessionCondition false true true = true
    ∧ purgeOpensSession false true true true = false := by
  decide

/-- C7 amended: the session is opened iff the store is encrypted at
rest OR (always-encrypt is requested AND the run is not a dry run AND a
password is available); `purge` additionally requires a non-dry run
outright.  On non-dry runs this agrees with the claimed condition. -/
theorem c7_amended_session_condition (we cae dr hp : Bool) :
    syncUseInMemory we cae dr hp = (we || (cae && !dr && hp))
    ∧ purgeOpensSession we cae dr hp = ((we || (cae && !dr && hp)) && !dr)
    ∧ (dr = false →
        syncUseInMemory we cae dr hp = claimedSessionCondition we cae hp) := by
  revert we cae dr hp
  decide

/-- Witness for the amended C7 on a non-dry run. -/
theorem c7_amended_session_condition_witness :
    syncUseInMemory false true false true
      = claimedSessionCondition false true true :=
  (c7_amended_session_condition false true false true).2.2 rfl

/-! ### INI-level text mutation (src/rclone.rs lines 765-887)

A config buffer is its list of lines.  `remove_ini_section` walks the
lines with a `skip` flag: a line starting with `'['` resets the flag to
"this line equals `[name]`", and lines are kept exactly while the flag
is off. -/

/-- The section header `format!("[{}]", section_name)`
(src/rclone.rs line 872). -/
def iniHeader (name : String) : String := "[" ++ name ++ "]"

/-- The loop of `remove_ini_section` (src/rclone.rs lines 876-884),
with the `skip` flag explicit. -/
def removeIniGo (header : String) : List String → Bool → List String
  | [], _ => []
  | l :: ls, skip =>
    let skip' := if charHead l = some '[' then l == header else skip
    if skip' then removeIniGo header ls skip'
    else l :: removeIniGo header ls skip'

/-- `remove_ini_section` (src/rclone.rs lines 871-887). -/
def removeIniSection (content : List String) (name : String) : List String :=
  removeIniGo (iniHeader name) content false

/-- The value of the `skip` flag after processing a list of lines. -/
def skipAfter (header : String) : List String → Bool → Bool
  | [], s => s
  | l :: ls, s =>
    skipAfter header ls (if charHead l = some '[' then l == header else s)

/-- The section text rendered by `create_remote_in_memory`
(src/rclone.rs lines 770-802), as its list of lines. -/
def sectionLines (name : String) (d : DesiredRemote) : List String :=
  match d with
  | .sftp host user key_file ssh server_command =>
      iniHeader name :: "type = sftp" :: ("host = " ++ host)
        :: ("user = " ++ user)
        :: ((match key_file with
             | some kf => ["key_file = " ++ kf]
             | none => ["ask_password = true"])
          ++ (match ssh with
              | some cmd => ["ssh = " ++ cmd]
              | none => [])
          ++ (match server_command with
              | some cmd => ["server_command = " ++ cmd]
              | none => [])
          ++ ["description = managed by pass-ssh-unpack"])
  | .alias target =>
      [iniHeader name, "type = alias", "remote = " ++ target ++ ":",
       "description = managed by pass-ssh-unpack"]

/-- `create_remote_in_memory` (src/rclone.rs lines 765-809): remove any
existing section of that name, then append the freshly rendered
section.  (After the removal the buffer is newline-terminated, so the
newline patch-up at lines 805-807 is a no-op at the line level.) -/
def createRemoteInMemory (content : List String) (name : String)
    (d : DesiredRemote) : List String :=
  removeIniSection content name ++ sectionLines name d

/-- `delete_remote_in_memory` (src/rclone.rs lines 858-860). -/
def deleteRemoteInMemory (content : List String) (name : String) :
    List String :=
  removeIniSection content name

theorem charHead_append (s t : String) (h : s.data ≠ []) :
    charHead (s ++ t) = charHead s := by
  unfold charHead
  rw [String.data_append]
  cases hs : s.data with
  | nil => exact absurd hs h
  | cons c cs => simp

theorem charHead_iniHeader (name : String) :
    charHead (iniHeader name) = some '[' := by
  unfold iniHeader
  rw [String.append_assoc]
  rw [charHead_append "[" (name ++ "]") (by decide)]
  rfl

theorem charHead_hostLine (h : String) :
    charHead ("host = " ++ h) = some 'h' := by
  rw [charHead_append "host = " h (by decide)]
  decide

theorem charHead_userLine (u : String) :
    charHead ("user = " ++ u) = some 'u' := by
  rw [charHead_append "user = " u (by decide)]
  decide

theorem charHead_keyFileLine (k : String) :
    charHead ("key_file = " ++ k) = some 'k' := by
  rw [charHead_append "key_file = " k (by decide)]
  decide

theorem charHead_sshLine (c : String) :
    charHead ("ssh = " ++ c) = some 's' := by
  rw [charHead_append "ssh = " c (by decide)]
  decide

theorem charHead_serverCommandLine (c : String) :
    charHead ("server_command = " ++ c) = some 's' := by
  rw [charHead_append "server_command = " c (by decide)]
  decide

theorem charHead_remoteLine (t : String) :
    charHead ("remote = " ++ t ++ ":") = some 'r' := by
  rw [String.append_assoc, charHead_append "remote = " (t ++ ":") (by decide)]
  decide

/-- Removing the section just rendered drops all of it, whatever the
incoming skip state: the rendered section starts with its own header
and no body line starts with a bracket. -/
theorem removeIniGo_sectionLines (name : String) (d : DesiredRemote)
    (s : Bool) :
    removeIniGo (iniHeader name) (sectionLines name d) s = [] := by
  cases d with
  | sftp host user key_file ssh server_command =>
      rcases key_file with _ | kf <;> rcases ssh with _ | sc <;>
        rcases server_command with _ | sv <;>
        simp +decide [sectionLines, removeIniGo, charHead_iniHeader,
          charHead_hostLine, charHead_userLine, charHead_keyFileLine,
          charHead_sshLine, charHead_serverCommandLine]
  | «alias» target =>
      simp +decide [sectionLines, removeIniGo, charHead_iniHeader,
        charHead_remoteLine]

theorem skipAfter_sectionLines (name : String) (d : DesiredRemote)
    (s : Bool) :
    skipAfter (iniHeader name) (sectionLines name d) s = true := by
  cases d with
  | sftp host user key_file ssh server_command =>
      rcases key_file with _ | kf <;> rcases ssh with _ | sc <;>
        rcases server_command with _ | sv <;>
        simp +decide [sectionLines, skipAfter, charHead_iniHeader,
          charHead_hostLine, charHead_userLine, charHead_keyFileLine,
          charHead_sshLine, charHead_serverCommandLine]
  | «alias» target =>
      simp +decide [sectionLines, skipAfter, charHead_iniHeader,
        charHead_remoteLine]

theorem removeIniGo_append (header : String) (a b : List String)
    (s : Bool) :
    removeIniGo header (a ++ b) s
      = removeIniGo header a s ++ removeIniGo header b (skipAfter header a s)
      := by
  induction a generalizing s with
  | nil => rfl
  | cons l a ih =>
      rw [List.cons_append]
      simp only [removeIniGo, skipAfter]
      by_cases hsk : (if charHead l = some '[' then l == header else s) = true
      · rw [if_pos hsk, if_pos hsk]
        exact ih _
      · rw [if_neg hsk, if_neg hsk, List.cons_append, ih _]

/-- The output of the removal loop is a fixpoint: removing the same
section again changes nothing, and the skip flag ends off. -/
theorem removeIniGo_idem (header : String) (c : List String) (s : Bool) :
    removeIniGo header (removeIniGo header c s) false
      = removeIniGo header c s
    ∧ skipAfter header (removeIniGo header c s) false = false := by
  induction c generalizing s with
  | nil => exact ⟨rfl, rfl⟩
  | cons l ls ih =>
      simp only [removeIniGo, skipAfter]
      by_cases hsk : (if charHead l = some '[' then l == header else s) = true
      · rw [if_pos hsk]
        exact ih _
      · rw [if_neg hsk]
        have h2 : (if charHead l = some '[' then (l == header) else false)
            = false := by
          by_cases hb : charHead l = some '['
          · rw [if_pos hb]
            rw [if_pos hb] at hsk
            exact Bool.eq_false_iff.mpr hsk
          · rw [if_neg hb]
        simp only [removeIniGo, skipAfter, h2, Bool.false_eq_true,
          if_neg (Bool.false_ne_true)]
        exact ⟨congrArg (List.cons l) (ih _).1, (ih _).2⟩

/-! ### The INI parser `parse_ini_config`
(src/rclone.rs lines 969-1018) -/

/-- `line.find('=')` and the two slices around it
(src/rclone.rs lines 988-990): `none` when the line has no `'='`. -/
def splitAtEq (l : List Char) : Option (List Char × List Char) :=
  match l.dropWhile (fun c => c ≠ '=') with
  | [] => none
  | _ :: post => some (l.takeWhile (fun c => c ≠ '='), post)

/-- `fields_to_remote` (src/rclone.rs lines 1006-1018): requires a
`type` key, every other field optional. -/
def fieldsToRemote (fields : List (String × String)) : Option RcloneRemote :=
  (fields.lookup "type").map fun t =>
    { remote_type := t, description := fields.lookup "description",
      key_file := fields.lookup "key_file", remote := fields.lookup "remote",
      host := fields.lookup "host", user := fields.lookup "user",
      ssh := fields.lookup "ssh",
      server_command := fields.lookup "server_command" }

/-- The loop state of `parse_ini_config`: current section name, its
accumulated fields, and the finished remotes.  Field and remote
insertion is a shadowing cons (`HashMap::insert` overwrite lookup
semantics). -/
structure ParseState where
  currentSection : Option String
  currentFields : List (String × String)
  remotes : List (String × RcloneRemote)

/-- Save the previous section if any (src/rclone.rs lines 979-983 and
996-1000). -/
def flushSection (st : ParseState) : List (String × RcloneRemote) :=
  match st.currentSection with
  | none => st.remotes
  | some s =>
      match fieldsToRemote st.currentFields with
      | some r => (s, r) :: st.remotes
      | none => st.remotes

/-- `line.starts_with('[') && line.ends_with(']')` on the trimmed line
(src/rclone.rs line 977). -/
def isHeaderLine (t : String) : Bool :=
  charHead t == some '[' && charLast t == some ']'

/-- `line[1..line.len() - 1]` (src/rclone.rs line 986). -/
def sectionNameOf (t : String) : String :=
  String.mk ((t.data.drop 1).dropLast)

/-- One iteration of the parse loop (src/rclone.rs lines 974-993). -/
def parseLine (st : ParseState) (rawLine : String) : ParseState :=
  let line := rustTrim rawLine
  if isHeaderLine line then
    { currentSection := some (sectionNameOf line), currentFields := [],
      remotes := flushSection st }
  else
    match splitAtEq line.data with
    | some (pre, post) =>
        { st with currentFields :=
            (rustTrim (String.mk pre), rustTrim (String.mk post))
              :: st.currentFields }
    | none => st

/-- `parse_ini_config` (src/rclone.rs lines 969-1003). -/
def parseIni (content : List String) : List (String × RcloneRemote) :=
  flushSection (content.foldl parseLine
    { currentSection := none, currentFields := [], remotes := [] })

/-! ### Claim C8 -/

/-- Special case kept as a supporting lemma: when the name's section
is the freshly rendered trailing section (a buffer produced by
`create_remote_in_memory`), delete-then-create with the same definition
restores the buffer literally, line for line. -/
theorem createRemoteInMemory_fresh_round_trip (c : List String)
    (n : String) (d : DesiredRemote) :
    createRemoteInMemory
        (deleteRemoteInMemory (createRemoteInMemory c n d) n) n d
      = createRemoteInMemory c n d := by
  have key : deleteRemoteInMemory (createRemoteInMemory c n d) n
      = removeIniSection c n := by
    unfold deleteRemoteInMemory createRemoteInMemory removeIniSection
    rw [removeIniGo_append]
    rw [(removeIniGo_idem (iniHeader n) c false).1,
      (removeIniGo_idem (iniHeader n) c false).2]
    rw [removeIniGo_sectionLines]
    exact List.append_nil _
  rw [key]
  unfold createRemoteInMemory removeIniSection
  rw [(removeIniGo_idem (iniHeader n) c false).1]

/-! ### Claim C10: `remove_ini_section` against `parse_ini_config` -/

/-- A line that does not start a section (first character not `'['`). -/
def nonBracket (x : String) : Bool := !(charHead x == some '[')

theorem dropWhileLengthLe {α : Type} (p : α → Bool) (l : List α) :
    (l.dropWhile p).length ≤ l.length :=
  (List.dropWhile_suffix p).length_le

/-- The buffer cut into maximal groups: a group runs from a line (a
bracket line, or the start of the buffer) up to just before the next
line starting with `'['`.  This is the claim's reading of "a section
extends from its header to the line before the next line starting with
'[' or the end of the buffer". -/
def iniGroups : List String → List (List String)
  | [] => []
  | l :: ls =>
    (l :: ls.takeWhile nonBracket) :: iniGroups (ls.dropWhile nonBracket)
  termination_by l => l.length
  decreasing_by
    simp only [List.length_cons]
    exact Nat.lt_succ_of_le (dropWhileLengthLe _ _)

theorem iniGroups_nil : iniGroups [] = [] := by
  rw [iniGroups]

theorem removeIniGo_nonbracket_true (header : String) (ls : List String)
    (hls : ∀ l ∈ ls, charHead l ≠ some '[') :
    removeIniGo header ls true = [] := by
  induction ls with
  | nil => rfl
  | cons l ls ih =>
      have h1 : charHead l ≠ some '[' := hls l (by simp)
      simp only [removeIniGo, if_neg h1, if_pos rfl]
      exact ih (fun x hx => hls x (by simp [hx]))

theorem removeIniGo_nonbracket_false (header : String) (ls : List String)
    (hls : ∀ l ∈ ls, charHead l ≠ some '[') :
    removeIniGo header ls false = ls := by
  induction ls with
  | nil => rfl
  | cons l ls ih =>
      have h1 : charHead l ≠ some '[' := hls l (by simp)
      simp only [removeIniGo, if_neg h1, Bool.false_eq_true, if_neg not_false]
      rw [ih (fun x hx => hls x (by simp [hx]))]

theorem skipAfter_nonbracket (header : String) (ls : List String)
    (hls : ∀ l ∈ ls, charHead l ≠ some '[') (s : Bool) :
    skipAfter header ls s = s := by
  induction ls generalizing s with
  | nil => rfl
  | cons l ls ih =>
      have h1 : charHead l ≠ some '[' := hls l (by simp)
      simp only [skipAfter, if_neg h1]
      exact ih (fun x hx => hls x (by simp [hx])) s

/-- A bracket line resets the skip flag, so the incoming flag is
irrelevant from there on. -/
theorem removeIniGo_reset (header b : String) (B : List String)
    (hb : charHead b = some '[') (s t : Bool) :
    removeIniGo header (b :: B) s = removeIniGo header (b :: B) t := by
  simp only [removeIniGo, if_pos hb]

theorem dropWhile_head_false {α : Type} (p : α → Bool) (ls : List α) :
    ∀ b B, ls.dropWhile p = b :: B → p b = false := by
  induction ls with
  | nil => intro b B h; cases h
  | cons x xs ih =>
      intro b B h
      by_cases hp : p x = true
      · rw [List.dropWhile_cons, if_pos hp] at h
        exact ih b B h
      · rw [List.dropWhile_cons, if_neg hp] at h
        cases h
        exact Bool.eq_false_iff.mpr hp

theorem mem_takeWhile_nonBracket (ls : List String) :
    ∀ x ∈ ls.takeWhile nonBracket, charHead x ≠ some '[' := by
  intro x hx
  have := List.mem_takeWhile_imp hx
  simpa [nonBracket] using this

/-- C10 part (a), as a lemma: `remove_ini_section` keeps, in order,
exactly the groups whose first line is not exactly `[name]`. -/
theorem removeIniSection_eq_filter_groups (name : String) :
    ∀ c : List String,
      removeIniSection c name
        = ((iniGroups c).filter
            (fun g => g.head? != some (iniHeader name))).flatten := by
  suffices H : ∀ k, ∀ c : List String, c.length ≤ k →
      removeIniSection c name
        = ((iniGroups c).filter
            (fun g => g.head? != some (iniHeader name))).flatten by
    intro c
    exact H c.length c le_rfl
  intro k
  induction k with
  | zero =>
      intro c hc
      rw [List.length_eq_zero.mp (Nat.le_zero.mp hc), iniGroups_nil]
      rfl
  | succ k ih =>
      intro c hc
      cases c with
      | nil =>
          rw [iniGroups_nil]
          rfl
      | cons l ls =>
          have hlen : ls.length ≤ k := by
            rw [List.length_cons] at hc
            exact Nat.succ_le_succ_iff.mp hc
          have hA := mem_takeWhile_nonBracket ls
          have hsplit := (List.takeWhile_append_dropWhile
            (p := nonBracket) (l := ls)).symm
          rw [iniGroups]
          by_cases hl : l = iniHeader name
          · subst hl
            have hhead := charHead_iniHeader name
            have hstep : removeIniGo (iniHeader name)
                (iniHeader name :: ls) false
                = removeIniGo (iniHeader name) ls true := by
              simp [removeIniGo, hhead]
            show removeIniGo (iniHeader name) (iniHeader name :: ls) false = _
            rw [hstep, List.filter_cons]
            have hdrop : (((iniHeader name) :: ls.takeWhile nonBracket).head?
                != some (iniHeader name)) = false := by simp
            rw [hdrop, if_neg Bool.false_ne_true]
            conv_lhs => rw [hsplit]
            rw [removeIniGo_append, removeIniGo_nonbracket_true _ _ hA,
              skipAfter_nonbracket _ _ hA true, List.nil_append]
            cases hB : ls.dropWhile nonBracket with
            | nil =>
                rw [iniGroups_nil]
                rfl
            | cons b B =>
                have hbf := dropWhile_head_false nonBracket ls b B hB
                have hbc : charHead b = some '[' := by
                  simpa [nonBracket] using hbf
                rw [removeIniGo_reset _ b B hbc true false]
                exact ih (b :: B)
                  (le_trans (hB ▸ dropWhileLengthLe nonBracket ls) hlen)
          · have hsk : (if charHead l = some '['
                then l == iniHeader name else false) = false := by
              by_cases hb : charHead l = some '['
              · rw [if_pos hb]
                exact beq_eq_false_iff_ne.mpr hl
              · rw [if_neg hb]
            show removeIniGo (iniHeader name) (l :: ls) false = _
            simp only [removeIniGo]
            rw [hsk, if_neg Bool.false_ne_true]
            rw [List.filter_cons]
            have hkeep : (((l :: ls.takeWhile nonBracket)).head?
                != some (iniHeader name)) = true := by
              simp only [List.head?_cons]
              exact bne_iff_ne.mpr (by simpa using hl)
            rw [if_pos hkeep, List.flatten_cons, List.cons_append]
            conv_lhs => rw [hsplit]
            rw [removeIniGo_append, removeIniGo_nonbracket_false _ _ hA,
              skipAfter_nonbracket _ _ hA false]
            have hih := ih (ls.dropWhile nonBracket)
              (le_trans (dropWhileLengthLe nonBracket ls) hlen)
            unfold removeIniSection at hih
            rw [hih]

/-! ### Relating `remove_ini_section` to `parse_ini_config` -/

theorem dropWhile_append_singleton {α : Type} (p : α → Bool) (a : α)
    (ha : p a = false) (ys : List α) :
    (ys ++ [a]).dropWhile p = ys.dropWhile p ++ [a] := by
  induction ys with
  | nil => simp [List.dropWhile_cons, ha]
  | cons y ys ih =>
      by_cases hy : p y = true
      · simp [List.dropWhile_cons, hy, ih]
      · simp [List.dropWhile_cons, hy]

/-- Trimming a line whose first character is not whitespace leaves
that first character in place. -/
theorem charHead_rustTrim_of_head (l : String) (c : Char)
    (h : charHead l = some c) (hc : rustIsWhitespace c = false) :
    charHead (rustTrim l) = some c := by
  unfold charHead at h
  cases hd : l.data with
  | nil => rw [hd] at h; cases h
  | cons c0 cs =>
      rw [hd] at h
      have hc0 : c0 = c := by simpa using h
      subst hc0
      show ((rustTrim l).data).head? = some c0
      unfold rustTrim ltrimCharsList rtrimCharsList
      rw [hd, List.dropWhile_cons, if_neg (by simp [hc])]
      rw [List.reverse_cons,
        dropWhile_append_singleton rustIsWhitespace c0 hc,
        List.reverse_append]
      simp

/-- Trimming a line that starts with `'['` leaves it starting with
`'['`: whitespace stripping removes no bracket. -/
theorem charHead_rustTrim (l : String) (h : charHead l = some '[') :
    charHead (rustTrim l) = some '[' :=
  charHead_rustTrim_of_head l '[' h (by decide)

theorem iniHeader_data (n : String) :
    (iniHeader n).data = '[' :: (n.data ++ [']']) := by
  show (("[" ++ n) ++ "]").data = _
  rw [String.data_append, String.data_append]
  simp

theorem charLast_iniHeader (n : String) :
    charLast (iniHeader n) = some ']' := by
  unfold charLast
  rw [iniHeader_data, ← List.cons_append]
  exact List.getLast?_concat _

theorem charHead_iniHeader_again (n : String) :
    charHead (iniHeader n) = some '[' := charHead_iniHeader n

theorem sectionNameOf_iniHeader (n : String) :
    sectionNameOf (iniHeader n) = n := by
  unfold sectionNameOf
  rw [iniHeader_data]
  simp

/-- A line that starts with `'['` and ends with `']'` is a bracketed
chunk: `'['`, a middle, `']'`. -/
theorem header_decomp (l : String) (h1 : charHead l = some '[')
    (h2 : charLast l = some ']') :
    ∃ mid, l.data = '[' :: (mid ++ [']']) := by
  unfold charHead at h1
  unfold charLast at h2
  cases hd : l.data with
  | nil => rw [hd] at h1; cases h1
  | cons c cs =>
      rw [hd] at h1 h2
      have hc : c = '[' := by simpa using h1
      subst hc
      cases hcs : cs with
      | nil => rw [hcs] at h2; simp at h2
      | cons d ds =>
          have hne : cs ≠ [] := by rw [hcs]; simp
          have hlast : cs.getLast? = some ']' := by
            rw [hcs] at h2 ⊢
            rw [List.getLast?_cons_cons] at h2
            exact h2
          have h3 : cs.getLast hne = ']' := by
            rw [List.getLast?_eq_getLast cs hne] at hlast
            exact Option.some.injEq _ _ ▸ hlast
          refine ⟨cs.dropLast, ?_⟩
          have h4 : cs = cs.dropLast ++ [']'] := by
            conv_lhs => rw [← List.dropLast_append_getLast hne]
            rw [h3]
          rw [← hcs, ← h4]

theorem eq_iniHeader_of_nameOf {l : String} {mid : List Char} {n : String}
    (hd : l.data = '[' :: (mid ++ [']'])) (hn : sectionNameOf l = n) :
    l = iniHeader n := by
  have hmid : sectionNameOf l = String.mk mid := by
    unfold sectionNameOf
    rw [hd]
    simp
  rw [hmid] at hn
  have hmn : mid = n.data := congrArg String.data hn
  have hdata : l.data = (iniHeader n).data := by
    rw [hd, iniHeader_data, hmn]
  exact congrArg String.mk hdata

/-! Lookup bookkeeping for the parse state. -/

/-- Two remote maps that agree on every name other than `name`. -/
def offEq (name : String) (A B : List (String × RcloneRemote)) : Prop :=
  ∀ k, k ≠ name → A.lookup k = B.lookup k

theorem offEq_refl (name : String) (A : List (String × RcloneRemote)) :
    offEq name A A := fun _ _ => rfl

theorem offEq_trans {name : String} {A B C : List (String × RcloneRemote)}
    (h1 : offEq name A B) (h2 : offEq name B C) : offEq name A C :=
  fun k hk => (h1 k hk).trans (h2 k hk)

theorem offEq_cons {name : String} {A B : List (String × RcloneRemote)}
    (s : String) (r : RcloneRemote) (h : offEq name A B) :
    offEq name ((s, r) :: A) ((s, r) :: B) := by
  intro k hk
  by_cases hks : (k == s) = true
  · simp [List.lookup, hks]
  · simp [List.lookup, hks, h k hk]

theorem offEq_cons_name {name : String} {A : List (String × RcloneRemote)}
    (r : RcloneRemote) : offEq name ((name, r) :: A) A := by
  intro k hk
  have hne : (k == name) = false := beq_eq_false_iff_ne.mpr hk
  simp [List.lookup, hne]

theorem lookup_cons_ne {A : List (String × RcloneRemote)} {k s : String}
    (r : RcloneRemote) (h : k ≠ s) :
    ((s, r) :: A).lookup k = A.lookup k := by
  have hne : (k == s) = false := beq_eq_false_iff_ne.mpr h
  simp [List.lookup, hne]

theorem flush_offEq {name : String} {stC stF : ParseState}
    (hsec : stC.currentSection = stF.currentSection)
    (hflds : stC.currentFields = stF.currentFields)
    (hrem : offEq name stC.remotes stF.remotes) :
    offEq name (flushSection stC) (flushSection stF) := by
  unfold flushSection
  rw [hsec, hflds]
  cases stF.currentSection with
  | none => exact hrem
  | some s =>
      cases fieldsToRemote stF.currentFields with
      | none => exact hrem
      | some r => exact offEq_cons s r hrem

theorem flush_offEq_self_of_name {name : String} {st : ParseState}
    (h : st.currentSection = some name) :
    offEq name (flushSection st) st.remotes := by
  unfold flushSection
  rw [h]
  cases fieldsToRemote st.currentFields with
  | none => exact offEq_refl name st.remotes
  | some r => exact offEq_cons_name r

theorem flush_lookup_name {name : String} {st : ParseState}
    (hsec : st.currentSection ≠ some name)
    (hrem : st.remotes.lookup name = none) :
    (flushSection st).lookup name = none := by
  unfold flushSection
  cases hs : st.currentSection with
  | none => exact hrem
  | some s =>
      cases fieldsToRemote st.currentFields with
      | none => exact hrem
      | some r =>
          have hne : name ≠ s := fun hczy => hsec (by rw [hs, hczy])
          rw [lookup_cons_ne r hne]
          exact hrem

/-- Well-bracketed content: every line whose trimmed form begins with
`'['` is untrimmed (equal to its trim) and ends with `']'`.  This rules
out lines like `" [x]"` or `"[x"` on which `remove_ini_section` (exact
untrimmed matching) and `parse_ini_config` (trimmed matching) disagree
about section boundaries. -/
def WellBracketed (c : List String) : Prop :=
  ∀ l ∈ c, charHead (rustTrim l) = some '[' →
    l = rustTrim l ∧ charLast l = some ']'

instance (c : List String) : Decidable (WellBracketed c) := by
  unfold WellBracketed
  infer_instance

/-- The simulation invariant between the parse of the original buffer
(state `stC`) and the parse of the section-removed buffer (state
`stF`), indexed by the removal loop's skip flag. -/
def SimInv (name : String) (skip : Bool) (stC stF : ParseState) : Prop :=
  stF.currentSection ≠ some name
  ∧ stF.remotes.lookup name = none
  ∧ (if skip then
       stC.currentSection = some name
       ∧ offEq name stC.remotes (flushSection stF)
     else
       stC.currentSection = stF.currentSection
       ∧ stC.currentFields = stF.currentFields
       ∧ offEq name stC.remotes stF.remotes)

theorem parseLine_header (st : ParseState) (l : String)
    (heq : l = rustTrim l) (hhl : isHeaderLine l = true) :
    parseLine st l
      = { currentSection := some (sectionNameOf l), currentFields := [],
          remotes := flushSection st } := by
  unfold parseLine
  rw [← heq, if_pos hhl]

theorem parseLine_non_header (st : ParseState) (l : String)
    (h : isHeaderLine (rustTrim l) = false) :
    (parseLine st l).currentSection = st.currentSection
    ∧ (parseLine st l).remotes = st.remotes
    ∧ (parseLine st l).currentFields
        = (match splitAtEq (rustTrim l).data with
           | some (pre, post) =>
               (rustTrim (String.mk pre), rustTrim (String.mk post))
                 :: st.currentFields
           | none => st.currentFields) := by
  unfold parseLine
  rw [if_neg (by simp [h])]
  cases splitAtEq (rustTrim l).data with
  | none => exact ⟨rfl, rfl, rfl⟩
  | some pr =>
      cases pr with
      | mk pre post => exact ⟨rfl, rfl, rfl⟩

/-- One simulation step for a line the removal loop drops. -/
theorem sim_step_drop (name : String) (l : String)
    (hWB : charHead (rustTrim l) = some '[' →
      l = rustTrim l ∧ charLast l = some ']')
    (skip : Bool) (stC stF : ParseState) (hinv : SimInv name skip stC stF)
    (hsk : (if charHead l = some '[' then l == iniHeader name else skip)
      = true) :
    SimInv name true (parseLine stC l) stF := by
  obtain ⟨hF1, hF2, hrest⟩ := hinv
  by_cases hb : charHead l = some '['
  · rw [if_pos hb] at hsk
    have hleq : l = iniHeader name := eq_of_beq hsk
    obtain ⟨heq, hlast⟩ := hWB (charHead_rustTrim l hb)
    have hhl : isHeaderLine l = true := by
      unfold isHeaderLine
      rw [hb, hlast]
      rfl
    rw [parseLine_header stC l heq hhl]
    refine ⟨hF1, hF2, ?_⟩
    rw [if_pos rfl]
    constructor
    · show some (sectionNameOf l) = some name
      rw [hleq, sectionNameOf_iniHeader]
    · show offEq name (flushSection stC) (flushSection stF)
      cases hs : skip
      · rw [hs, if_neg Bool.false_ne_true] at hrest
        exact flush_offEq hrest.1 hrest.2.1 hrest.2.2
      · rw [hs, if_pos rfl] at hrest
        exact offEq_trans (flush_offEq_self_of_name hrest.1) hrest.2
  · rw [if_neg hb] at hsk
    have hnt : charHead (rustTrim l) ≠ some '[' := by
      intro hcontra
      exact hb ((hWB hcontra).1 ▸ hcontra)
    have hhl : isHeaderLine (rustTrim l) = false := by
      unfold isHeaderLine
      rw [beq_eq_false_iff_ne.mpr hnt]
      rfl
    obtain ⟨hc1, hc2, _⟩ := parseLine_non_header stC l hhl
    rw [hsk, if_pos rfl] at hrest
    refine ⟨hF1, hF2, ?_⟩
    rw [if_pos rfl]
    exact ⟨hc1 ▸ hrest.1, hc2 ▸ hrest.2⟩

/-- One simulation step for a line the removal loop keeps. -/
theorem sim_step_keep (name : String) (l : String)
    (hWB : charHead (rustTrim l) = some '[' →
      l = rustTrim l ∧ charLast l = some ']')
    (skip : Bool) (stC stF : ParseState) (hinv : SimInv name skip stC stF)
    (hsk : (if charHead l = some '[' then l == iniHeader name else skip)
      = false) :
    SimInv name false (parseLine stC l) (parseLine stF l) := by
  obtain ⟨hF1, hF2, hrest⟩ := hinv
  by_cases hb : charHead l = some '['
  · rw [if_pos hb] at hsk
    have hlne : l ≠ iniHeader name := by
      intro hcontra
      rw [hcontra] at hsk
      simp at hsk
    obtain ⟨heq, hlast⟩ := hWB (charHead_rustTrim l hb)
    have hhl : isHeaderLine l = true := by
      unfold isHeaderLine
      rw [hb, hlast]
      rfl
    obtain ⟨mid, hdec⟩ := header_decomp l hb hlast
    have hsne : sectionNameOf l ≠ name := by
      intro hsn
      exact hlne (eq_iniHeader_of_nameOf hdec hsn)
    rw [parseLine_header stC l heq hhl, parseLine_header stF l heq hhl]
    refine ⟨by simpa using hsne, flush_lookup_name hF1 hF2, ?_⟩
    rw [if_neg Bool.false_ne_true]
    refine ⟨rfl, rfl, ?_⟩
    show offEq name (flushSection stC) (flushSection stF)
    cases hs : skip
    · rw [hs, if_neg Bool.false_ne_true] at hrest
      exact flush_offEq hrest.1 hrest.2.1 hrest.2.2
    · rw [hs, if_pos rfl] at hrest
      exact offEq_trans (flush_offEq_self_of_name hrest.1) hrest.2
  · rw [if_neg hb] at hsk
    have hnt : charHead (rustTrim l) ≠ some '[' := by
      intro hcontra
      exact hb ((hWB hcontra).1 ▸ hcontra)
    have hhl : isHeaderLine (rustTrim l) = false := by
      unfold isHeaderLine
      rw [beq_eq_false_iff_ne.mpr hnt]
      rfl
    obtain ⟨hc1, hc2, hc3⟩ := parseLine_non_header stC l hhl
    obtain ⟨hf1, hf2, hf3⟩ := parseLine_non_header stF l hhl
    rw [hsk, if_neg Bool.false_ne_true] at hrest
    refine ⟨hf1 ▸ hF1, hf2 ▸ hF2, ?_⟩
    rw [if_neg Bool.false_ne_true]
    refine ⟨?_, ?_, ?_⟩
    · rw [hc1, hf1]
      exact hrest.1
    · rw [hc3, hf3, hrest.2.1]
    · rw [hc2, hf2]
      exact hrest.2.2

/-- Running the parse on the original and on the removed buffer keeps
the simulation invariant, with the final flag given by `skipAfter`. -/
theorem sim_run (name : String) (c : List String) (hWB : WellBracketed c) :
    ∀ skip stC stF, SimInv name skip stC stF →
      SimInv name (skipAfter (iniHeader name) c skip)
        (c.foldl parseLine stC)
        ((removeIniGo (iniHeader name) c skip).foldl parseLine stF) := by
  induction c with
  | nil => exact fun skip stC stF h => h
  | cons l ls ih =>
      intro skip stC stF h
      have hWBl := hWB l (by simp)
      have hWBls : WellBracketed ls := fun x hx => hWB x (by simp [hx])
      simp only [removeIniGo, skipAfter, List.foldl_cons]
      by_cases hsk : (if charHead l = some '[' then l == iniHeader name
          else skip) = true
      · rw [hsk, if_pos rfl]
        exact ih hWBls true (parseLine stC l) stF
          (sim_step_drop name l hWBl skip stC stF h hsk)
      · have hskf := Bool.eq_false_iff.mpr hsk
        rw [hskf, if_neg Bool.false_ne_true, List.foldl_cons]
        exact ih hWBls false (parseLine stC l) (parseLine stF l)
          (sim_step_keep name l hWBl skip stC stF h hskf)

theorem sim_final (name : String) (skip : Bool) (stC stF : ParseState)
    (h : SimInv name skip stC stF) :
    offEq name (flushSection stC) (flushSection stF)
    ∧ (flushSection stF).lookup name = none := by
  obtain ⟨hF1, hF2, hrest⟩ := h
  refine ⟨?_, flush_lookup_name hF1 hF2⟩
  cases hs : skip
  · rw [hs, if_neg Bool.false_ne_true] at hrest
    exact flush_offEq hrest.1 hrest.2.1 hrest.2.2
  · rw [hs, if_pos rfl] at hrest
    exact offEq_trans (flush_offEq_self_of_name hrest.1) hrest.2

/-- C10 part (b), as a lemma: on well-bracketed content, parsing the
removed buffer agrees with parsing the original everywhere except
`name`, which is absent. -/
theorem parseIni_removeIniSection (c : List String) (name : String)
    (hWB : WellBracketed c) :
    (∀ k, k ≠ name →
      (parseIni (removeIniSection c name)).lookup k = (parseIni c).lookup k)
    ∧ (parseIni (removeIniSection c name)).lookup name = none := by
  have h0 : SimInv name false
      { currentSection := none, currentFields := [], remotes := [] }
      { currentSection := none, currentFields := [], remotes := [] } := by
    refine ⟨by simp, rfl, ?_⟩
    rw [if_neg Bool.false_ne_true]
    exact ⟨rfl, rfl, offEq_refl name []⟩
  have h := sim_run name c hWB false _ _ h0
  have hf := sim_final name _ _ _ h
  exact ⟨fun k hk => (hf.1 k hk).symm, hf.2⟩

/-- C10 part (c), as a lemma: without an exact `[name]` line the
removal is the identity. -/
theorem removeIniSection_no_header (c : List String) (name : String)
    (hc : ∀ l ∈ c, l ≠ iniHeader name) :
    removeIniSection c name = c := by
  suffices H : ∀ cs : List String, (∀ l ∈ cs, l ≠ iniHeader name) →
      removeIniGo (iniHeader name) cs false = cs from H c hc
  intro cs
  induction cs with
  | nil => exact fun _ => rfl
  | cons l ls ih =>
      intro hcs
      have hl : l ≠ iniHeader name := hcs l (by simp)
      have hsk : (if charHead l = some '[' then l == iniHeader name
          else false) = false := by
        by_cases hb : charHead l = some '['
        · rw [if_pos hb]
          exact beq_eq_false_iff_ne.mpr hl
        · rw [if_neg hb]
      simp only [removeIniGo]
      rw [hsk, if_neg Bool.false_ne_true,
        ih (fun x hx => hcs x (by simp [hx]))]

/-- C10 counterexample: the content `[" [db1]", "type = sftp"]` has a
section header for `db1` after trimming, which `parse_ini_config`
recognizes but `remove_ini_section` (exact untrimmed match) does not:
removal keeps the buffer unchanged and the parse of the result still
contains `db1` — the named entry is not absent. -/
theorem c10_counterexample_trimmed_header :
    removeIniSection [" [db1]", "type = sftp"] "db1"
      = [" [db1]", "type = sftp"]
    ∧ (parseIni (removeIniSection [" [db1]", "type = sftp"] "db1")).lookup
        "db1" ≠ none := by
  decide

/-- C10 amended: (a) `remove_ini_section` preserves, in order, exactly
the lines of the groups whose first line is not exactly `[name]` (a
group runs from a line starting with `'['` to the line before the next
such line; lines before any header are kept); (b) when every line whose
trimmed form begins with `'['` is untrimmed and ends with `']'`,
parsing the result gives the same mapping as parsing the input except
that the named entry is absent; (c) removing a name with no exact
`[name]` line leaves the content — hence the parsed mapping —
unchanged. -/
theorem c10_remove_section_behavior (c : List String) (name : String) :
    removeIniSection c name
      = ((iniGroups c).filter
          (fun g => g.head? != some (iniHeader name))).flatten
    ∧ (WellBracketed c →
        (∀ k, k ≠ name →
          (parseIni (removeIniSection c name)).lookup k
            = (parseIni c).lookup k)
        ∧ (parseIni (removeIniSection c name)).lookup name = none)
    ∧ ((∀ l ∈ c, l ≠ iniHeader name) → removeIniSection c name = c) :=
  ⟨removeIniSection_eq_filter_groups name c,
    parseIni_removeIniSection c name,
    removeIniSection_no_header c name⟩

/-- Witness for the amended C10 on concrete content: removing `[b]`
from a two-section buffer keeps `a` parse-identical and makes `b`
absent; removing an absent name changes nothing. -/
theorem c10_remove_section_behavior_witness :
    (parseIni (removeIniSection
        ["[a]", "type = sftp", "[b]", "type = alias", "remote = a:"]
        "b")).lookup "b" = none
    ∧ (parseIni (removeIniSection
        ["[a]", "type = sftp", "[b]", "type = alias", "remote = a:"]
        "b")).lookup "a"
      = (parseIni
          ["[a]", "type = sftp", "[b]", "type = alias", "remote = a:"]).lookup
          "a"
    ∧ removeIniSection ["[a]", "type = sftp"] "zzz" = ["[a]", "type = sftp"]
    := by
  have h := c10_remove_section_behavior
    ["[a]", "type = sftp", "[b]", "type = alias", "remote = a:"] "b"
  have hb := h.2.1 (by decide)
  exact ⟨hb.2, hb.1 "a" (by decide),
    (c10_remove_section_behavior ["[a]", "type = sftp"] "zzz").2.2
      (by decide)⟩

/-! ### Parsing a freshly rendered section appended to a buffer -/

theorem ltrim_cons_nonws (p : Char → Bool) (a : Char) (xs : List Char)
    (ha : p a = false) : ltrimCharsList p (a :: xs) = a :: xs := by
  unfold ltrimCharsList
  rw [List.dropWhile_cons, if_neg (by simp [ha])]

theorem rtrim_concat_nonws (p : Char → Bool) (b : Char) (ys : List Char)
    (hb : p b = false) : rtrimCharsList p (ys ++ [b]) = ys ++ [b] := by
  unfold rtrimCharsList
  rw [List.reverse_append]
  simp [List.dropWhile_cons, hb]

/-- The rendered header is already trimmed: it starts with `'['` and
ends with `']'`, neither of which is whitespace. -/
theorem rustTrim_iniHeader (n : String) :
    rustTrim (iniHeader n) = iniHeader n := by
  unfold rustTrim
  rw [iniHeader_data, ltrim_cons_nonws _ _ _ (by decide),
    ← List.cons_append, rtrim_concat_nonws _ _ _ (by decide),
    List.cons_append, ← iniHeader_data]

theorem isHeaderLine_iniHeader (n : String) :
    isHeaderLine (iniHeader n) = true := by
  unfold isHeaderLine
  rw [charHead_iniHeader, charLast_iniHeader]
  rfl

/-- Parsing the exact rendered header line: flush the pending section
and open section `n` with empty fields. -/
theorem parseLine_iniHeader (st : ParseState) (n : String) :
    parseLine st (iniHeader n)
      = { currentSection := some n, currentFields := [],
          remotes := flushSection st } := by
  rw [parseLine_header st (iniHeader n) (rustTrim_iniHeader n).symm
    (isHeaderLine_iniHeader n), sectionNameOf_iniHeader]

theorem isHeaderLine_eq_false_of_head (t : String) (c : Char)
    (h : charHead t = some c) (hc : c ≠ '[') : isHeaderLine t = false := by
  unfold isHeaderLine
  rw [h]
  have hne : (some c == some '[') = false :=
    beq_eq_false_iff_ne.mpr (by simpa using hc)
  rw [hne, Bool.false_and]

theorem nh_hostLine (h : String) :
    isHeaderLine (rustTrim ("host = " ++ h)) = false :=
  isHeaderLine_eq_false_of_head _ 'h'
    (charHead_rustTrim_of_head _ 'h' (charHead_hostLine h) (by decide))
    (by decide)

theorem nh_userLine (u : String) :
    isHeaderLine (rustTrim ("user = " ++ u)) = false :=
  isHeaderLine_eq_false_of_head _ 'u'
    (charHead_rustTrim_of_head _ 'u' (charHead_userLine u) (by decide))
    (by decide)

theorem nh_keyFileLine (k : String) :
    isHeaderLine (rustTrim ("key_file = " ++ k)) = false :=
  isHeaderLine_eq_false_of_head _ 'k'
    (charHead_rustTrim_of_head _ 'k' (charHead_keyFileLine k) (by decide))
    (by decide)

theorem nh_sshLine (c : String) :
    isHeaderLine (rustTrim ("ssh = " ++ c)) = false :=
  isHeaderLine_eq_false_of_head _ 's'
    (charHead_rustTrim_of_head _ 's' (charHead_sshLine c) (by decide))
    (by decide)

theorem nh_serverCommandLine (c : String) :
    isHeaderLine (rustTrim ("server_command = " ++ c)) = false :=
  isHeaderLine_eq_false_of_head _ 's'
    (charHead_rustTrim_of_head _ 's' (charHead_serverCommandLine c)
      (by decide))
    (by decide)

theorem nh_remoteLine (t : String) :
    isHeaderLine (rustTrim ("remote = " ++ t ++ ":")) = false :=
  isHeaderLine_eq_false_of_head _ 'r'
    (charHead_rustTrim_of_head _ 'r' (charHead_remoteLine t) (by decide))
    (by decide)

theorem nh_askPasswordLine :
    isHeaderLine (rustTrim "ask_password = true") = false := by
  decide

theorem nh_descriptionLine :
    isHeaderLine (rustTrim "description = managed by pass-ssh-unpack")
      = false := by
  decide

/-- The effect of a non-header line on the accumulated fields
(src/rclone.rs lines 988-992). -/
def fieldAction (l : String) (flds : List (String × String)) :
    List (String × String) :=
  match splitAtEq (rustTrim l).data with
  | some (pre, post) =>
      (rustTrim (String.mk pre), rustTrim (String.mk post)) :: flds
  | none => flds

theorem parseLine_non_header_eq (st : ParseState) (l : String)
    (h : isHeaderLine (rustTrim l) = false) :
    parseLine st l = { st with currentFields := fieldAction l st.currentFields }
    := by
  unfold parseLine fieldAction
  rw [if_neg (by simp [h])]
  cases splitAtEq (rustTrim l).data with
  | none => rfl
  | some pr =>
      cases pr with
      | mk pre post => rfl

/-- Folding the parser over non-header lines only rewrites the
accumulated fields. -/
theorem foldl_parseLine_nonheader (bs : List String)
    (hbs : ∀ l ∈ bs, isHeaderLine (rustTrim l) = false) :
    ∀ st : ParseState, bs.foldl parseLine st
      = { st with currentFields :=
            bs.foldl (fun f l => fieldAction l f) st.currentFields } := by
  induction bs with
  | nil => intro st; rfl
  | cons b bs ih =>
      intro st
      rw [List.foldl_cons, List.foldl_cons,
        parseLine_non_header_eq st b (hbs b (by simp)),
        ih (fun x hx => hbs x (by simp [hx]))]

theorem mem_foldl_fieldAction (bs : List String) (x : String × String) :
    ∀ f, x ∈ f → x ∈ bs.foldl (fun acc l => fieldAction l acc) f := by
  induction bs with
  | nil => exact fun _ hf => hf
  | cons b bs ih =>
      intro f hf
      rw [List.foldl_cons]
      apply ih
      unfold fieldAction
      cases splitAtEq (rustTrim b).data with
      | none => exact hf
      | some pr =>
          cases pr with
          | mk pre post => exact List.mem_cons_of_mem _ hf

theorem lookup_isSome_of_mem {α β : Type} [BEq α] [LawfulBEq α]
    {l : List (α × β)} {a : α} {b : β} (h : (a, b) ∈ l) :
    (l.lookup a).isSome = true := by
  induction l with
  | nil => cases h
  | cons p l ih =>
      cases p with
      | mk k v =>
          by_cases hak : (a == k) = true
          · simp [List.lookup, hak]
          · rcases List.mem_cons.mp h with heq | hmem
            · have hae : a = k := congrArg Prod.fst heq
              rw [hae] at hak
              simp at hak
            · simp only [List.lookup, hak]
              exact ih hmem

/-- The rendered section is the exact header, then a `type` line, then
body lines none of which the parser can take for a header. -/
theorem sectionLines_decomp (n : String) (d : DesiredRemote) :
    ∃ tline body tv,
      sectionLines n d = iniHeader n :: tline :: body
      ∧ isHeaderLine (rustTrim tline) = false
      ∧ fieldAction tline [] = [("type", tv)]
      ∧ ∀ l ∈ body, isHeaderLine (rustTrim l) = false := by
  cases d with
  | sftp host user key_file ssh server_command =>
      refine ⟨"type = sftp", _, "sftp", rfl, by decide, by decide, ?_⟩
      rw [List.forall_mem_cons, List.forall_mem_cons]
      refine ⟨nh_hostLine host, nh_userLine user, ?_⟩
      rw [List.forall_mem_append, List.forall_mem_append,
        List.forall_mem_append]
      refine ⟨⟨⟨?_, ?_⟩, ?_⟩, ?_⟩
      · cases key_file with
        | none =>
            intro l hl
            rw [List.mem_singleton] at hl
            subst hl
            exact nh_askPasswordLine
        | some kf =>
            intro l hl
            rw [List.mem_singleton] at hl
            subst hl
            exact nh_keyFileLine kf
      · cases ssh with
        | none => intro l hl; cases hl
        | some cmd =>
            intro l hl
            rw [List.mem_singleton] at hl
            subst hl
            exact nh_sshLine cmd
      · cases server_command with
        | none => intro l hl; cases hl
        | some cmd =>
            intro l hl
            rw [List.mem_singleton] at hl
            subst hl
            exact nh_serverCommandLine cmd
      · intro l hl
        rw [List.mem_singleton] at hl
        subst hl
        exact nh_descriptionLine
  | «alias» target =>
      refine ⟨"type = alias", _, "alias", rfl, by decide, by decide, ?_⟩
      rw [List.forall_mem_cons]
      refine ⟨nh_remoteLine target, ?_⟩
      intro l hl
      rw [List.mem_singleton] at hl
      subst hl
      exact nh_descriptionLine

/-- Folding the parser over a rendered section from any state: the
pending section is flushed, section `n` is open, and the accumulated
fields are those of the standalone parse and always contain a `type`
key. -/
theorem foldl_sectionLines (n : String) (d : DesiredRemote)
    (st : ParseState) :
    ∃ F : List (String × String),
      (sectionLines n d).foldl parseLine st
        = { currentSection := some n, currentFields := F,
            remotes := flushSection st }
      ∧ (sectionLines n d).foldl parseLine
          { currentSection := none, currentFields := [], remotes := [] }
        = { currentSection := some n, currentFields := F, remotes := [] }
      ∧ (F.lookup "type").isSome = true := by
  obtain ⟨tline, body, tv, hS, htnh, hta, hbody⟩ := sectionLines_decomp n d
  refine ⟨body.foldl (fun f l => fieldAction l f) [("type", tv)], ?_, ?_, ?_⟩
  · rw [hS, List.foldl_cons, parseLine_iniHeader, List.foldl_cons,
      parseLine_non_header_eq _ tline htnh,
      foldl_parseLine_nonheader body hbody]
    simp [hta]
  · rw [hS, List.foldl_cons, parseLine_iniHeader, List.foldl_cons,
      parseLine_non_header_eq _ tline htnh,
      foldl_parseLine_nonheader body hbody]
    simp [hta, flushSection]
  · exact lookup_isSome_of_mem
      (mem_foldl_fieldAction body ("type", tv) [("type", tv)] (by simp))

/-- Parsing a buffer with a rendered section appended: the mapping is
the buffer's own parse overwritten at `n` by the standalone parse of
the section. -/
theorem parseIni_append_section (A : List String) (n : String)
    (d : DesiredRemote) (k : String) :
    (parseIni (A ++ sectionLines n d)).lookup k
      = if k = n then (parseIni (sectionLines n d)).lookup n
        else (parseIni A).lookup k := by
  obtain ⟨F, hctx, hst0, hty⟩ := foldl_sectionLines n d
    (A.foldl parseLine
      { currentSection := none, currentFields := [], remotes := [] })
  have hr : ∃ r, fieldsToRemote F = some r := by
    unfold fieldsToRemote
    cases hl : F.lookup "type" with
    | none => rw [hl] at hty; cases hty
    | some t => exact ⟨_, rfl⟩
  obtain ⟨r, hrr⟩ := hr
  unfold parseIni
  rw [List.foldl_append, hctx, hst0]
  simp only [flushSection, hrr]
  by_cases hkn : k = n
  · rw [if_pos hkn, hkn]
    simp [List.lookup]
  · rw [if_neg hkn]
    exact lookup_cons_ne r hkn

/-! ### Claim C8 -/

/-- C8 counterexample: a buffer whose `db1` section is exactly the
rendering of the desired definition (so delete-then-create uses "the
same desired definition"), followed by a section whose header line
`" [x]"` carries a leading space.  `parse_ini_config` trims and sees
`x`; `remove_ini_section`, scanning for lines that start with `'['`,
treats `" [x]"` as part of the `db1` section and deletes it too, so
after delete-then-create the parse has lost `x` — the result is not
observationally equal to the original buffer. -/
theorem c8_counterexample_swallowed_section :
    "[db1]" ∈ ["[db1]", "type = sftp", "host = h", "user = u",
      "key_file = k", "description = managed by pass-ssh-unpack",
      " [x]", "type = alias", "remote = db1:"]
    ∧ (parseIni ["[db1]", "type = sftp", "host = h", "user = u",
        "key_file = k", "description = managed by pass-ssh-unpack",
        " [x]", "type = alias", "remote = db1:"]).lookup "db1"
      = (parseIni (sectionLines "db1"
          (DesiredRemote.sftp "h" "u" (some "k") none none))).lookup "db1"
    ∧ (parseIni ["[db1]", "type = sftp", "host = h", "user = u",
        "key_file = k", "description = managed by pass-ssh-unpack",
        " [x]", "type = alias", "remote = db1:"]).lookup "x" ≠ none
    ∧ (parseIni (createRemoteInMemory (deleteRemoteInMemory
        ["[db1]", "type = sftp", "host = h", "user = u",
         "key_file = k", "description = managed by pass-ssh-unpack",
         " [x]", "type = alias", "remote = db1:"] "db1") "db1"
        (DesiredRemote.sftp "h" "u" (some "k") none none))).lookup "x"
      = none := by
  decide

/-- C8 amended: for every well-bracketed config buffer (every line
whose trimmed form begins with `'['` is untrimmed and ends with `']'`)
and every remote name whose parsed entry in the buffer equals the
parsed entry of the section rendered for the desired definition — i.e.
the name's section carries the same desired definition — performing the
in-memory delete of that name followed by the in-memory create of the
same name with that definition yields a buffer observationally equal
under the INI parse, for all names and fields, to the buffer before the
delete (section ordering within the buffer may change: the re-created
section is appended at the end). -/
theorem c8_amended_round_trip_parse (c : List String) (n : String)
    (d : DesiredRemote) (hWB : WellBracketed c)
    (hentry : (parseIni c).lookup n
      = (parseIni (sectionLines n d)).lookup n) :
    ∀ k, (parseIni (createRemoteInMemory
        (deleteRemoteInMemory c n) n d)).lookup k
      = (parseIni c).lookup k := by
  have hkey : createRemoteInMemory (deleteRemoteInMemory c n) n d
      = removeIniSection c n ++ sectionLines n d := by
    unfold createRemoteInMemory deleteRemoteInMemory removeIniSection
    rw [(removeIniGo_idem (iniHeader n) c false).1]
  intro k
  rw [hkey, parseIni_append_section]
  by_cases hkn : k = n
  · rw [if_pos hkn, hkn, ← hentry]
  · rw [if_neg hkn]
    exact (parseIni_removeIniSection c n hWB).1 k hkn

/-- Witness for the amended C8: a well-bracketed buffer whose `db1`
section sits mid-buffer, followed by an alias section `x`; after
delete-then-create of `db1` the parse agrees with the original at both
`db1` and `x`. -/
theorem c8_amended_round_trip_parse_witness :
    (parseIni (createRemoteInMemory (deleteRemoteInMemory
        ["[db1]", "type = sftp", "host = h", "user = u",
         "key_file = k", "description = managed by pass-ssh-unpack",
         "[x]", "type = alias", "remote = db1:"] "db1") "db1"
        (DesiredRemote.sftp "h" "u" (some "k") none none))).lookup "x"
      = (parseIni ["[db1]", "type = sftp", "host = h", "user = u",
          "key_file = k", "description = managed by pass-ssh-unpack",
          "[x]", "type = alias", "remote = db1:"]).lookup "x"
    ∧ (parseIni (createRemoteInMemory (deleteRemoteInMemory
        ["[db1]", "type = sftp", "host = h", "user = u",
         "key_file = k", "description = managed by pass-ssh-unpack",
         "[x]", "type = alias", "remote = db1:"] "db1") "db1"
        (DesiredRemote.sftp "h" "u" (some "k") none none))).lookup "db1"
      = (parseIni ["[db1]", "type = sftp", "host = h", "user = u",
          "key_file = k", "description = managed by pass-ssh-unpack",
          "[x]", "type = alias", "remote = db1:"]).lookup "db1" :=
  ⟨c8_amended_round_trip_parse
      ["[db1]", "type = sftp", "host = h", "user = u",
       "key_file = k", "description = managed by pass-ssh-unpack",
       "[x]", "type = alias", "remote = db1:"] "db1"
      (DesiredRemote.sftp "h" "u" (some "k") none none)
      (by decide) (by decide) "x",
    c8_amended_round_trip_parse
      ["[db1]", "type = sftp", "host = h", "user = u",
       "key_file = k", "description = managed by pass-ssh-unpack",
       "[x]", "type = alias", "remote = db1:"] "db1"
      (DesiredRemote.sftp "h" "u" (some "k") none none)
      (by decide) (by decide) "db1"⟩

end PassSshUnpack
